import Mathlib

/-!
# ecowitt-influxdb: field conversion and renaming

A shallow embedding of `ecowitt-influxdb.go` (`convertData`, `renameFields` and the
unit converters) together with the properties established about it.

Modelling conventions.

* A Go `map[string]T` is an association list `List (String × T)` whose keys are pairwise
  distinct.  The order of the list is the order in which `range` visits the entries, so a
  statement quantified over all such lists covers every iteration order.  Assignment
  `m[k] = v` is `mapSet`, the lookup `v, ok := m[k]` is `mapGet`.
* The field mapping and the renaming carry `float64` values as exact rationals:
  arithmetic without binary rounding and without overflow, with `strconv.ParseFloat`
  embedded on decimal literals (sign, digits, optional point, optional decimal exponent).
  `int64` values are integers, with the saturation of `strconv.ParseInt` spelled out.
* The numerical behaviour of the rounding converters is embedded a second time, in the
  namespace `Binary64`, with every `float64` operation rounded to the nearest binary64
  number and `strconv.ParseFloat` on its whole grammar (decimal and hexadecimal literals,
  underscores, infinities, NaN, `ErrRange`).
* Functions returning `(value, error)` in Go return a pair whose second component is
  `none` on success; the value is kept on failure exactly as Go callers see it.
-/

namespace Ecowitt

/-! ## Go maps as association lists -/

/-- The lookup `m[k]` of a Go map: the value stored under `k`, if any. -/
def mapGet {β : Type} : List (String × β) → String → Option β
  | [], _ => none
  | (k', v) :: rest, k => if k' = k then some v else mapGet rest k

/-- The assignment `m[k] = v` of a Go map: overwrite the entry of `k`, or add one. -/
def mapSet {β : Type} : List (String × β) → String → β → List (String × β)
  | [], k, v => [(k, v)]
  | (k', v') :: rest, k, v =>
    if k' = k then (k, v) :: rest else (k', v') :: mapSet rest k v

/-- The keys of a map, in iteration order. -/
def mapKeys {β : Type} (m : List (String × β)) : List String := m.map Prod.fst

/-- The map without the entry of `k` (Go's `delete(m, k)`). -/
def mapDelete {β : Type} (m : List (String × β)) (k : String) : List (String × β) :=
  m.filter (fun e => decide (e.1 ≠ k))

/-- Well-formed map: no key occurs twice. -/
def WellFormed {β : Type} (m : List (String × β)) : Prop := (mapKeys m).Nodup

instance {β : Type} (m : List (String × β)) : Decidable (WellFormed m) := by
  unfold WellFormed; infer_instance

/-! ## Number parsing (`strconv`) -/

/-- The two failures of `strconv`: `ErrSyntax` and `ErrRange`. -/
inductive NumError where
  | invalid
  | outOfRange
  deriving DecidableEq

/-- Decimal digit test, `'0' <= c && c <= '9'`. -/
def isDigit (c : Char) : Bool := decide (48 ≤ c.toNat ∧ c.toNat ≤ 57)

/-- Value of a decimal digit, `c - '0'`. -/
def digitVal (c : Char) : Nat := c.toNat - 48

/-- Reads a maximal run of decimal digits: accumulated value, number of digits read, rest. -/
def scanDigits : List Char → Nat → Nat → Nat × Nat × List Char
  | [], acc, n => (acc, n, [])
  | c :: cs, acc, n =>
    if isDigit c then scanDigits cs (acc * 10 + digitVal c) (n + 1) else (acc, n, c :: cs)

/-- Splits off an optional sign; `true` for a leading minus. -/
def readSign : List Char → Bool × List Char
  | '-' :: cs => (true, cs)
  | '+' :: cs => (false, cs)
  | cs => (false, cs)

/-- The optional exponent part of a decimal literal; `none` when malformed or followed by
other text. -/
def readExponent : List Char → Option Int
  | [] => some 0
  | c :: cs =>
    if c = 'e' ∨ c = 'E' then
      let (neg, ds) := readSign cs
      match scanDigits ds 0 0 with
      | (e, n, []) => if n = 0 then none else some (if neg then -(e : Int) else (e : Int))
      | _ => none
    else none

/-- The rational `m * 10 ^ e`. -/
def scale10 (m : Nat) (e : Int) : ℚ := (m : ℚ) * (10 : ℚ) ^ e

/-- Decimal literal to number: sign, digits with at most one point, optional exponent. -/
def readDecimal (cs : List Char) : Option ℚ :=
  let (neg, cs1) := readSign cs
  let (ip, ni, cs2) := scanDigits cs1 0 0
  let (mant, nf, cs3) :=
    match cs2 with
    | '.' :: t => scanDigits t ip 0
    | _ => (ip, 0, cs2)
  if ni + nf = 0 then none
  else
    match readExponent cs3 with
    | none => none
    | some e =>
      let x := scale10 mant (e - (nf : Int))
      some (if neg then -x else x)

/-- Embedding of `strconv.ParseFloat(s, 64)` on decimal literals, in exact arithmetic: the
parsed number, or `0` with `ErrSyntax`.  `Binary64.parseFloat` is the `float64` parser on
the whole grammar. -/
def parseFloat (s : String) : ℚ × Option NumError :=
  match readDecimal s.toList with
  | some x => (x, none)
  | none => (0, some NumError.invalid)

/-- Largest `uint64`. -/
def maxUint64 : Nat := 2 ^ 64 - 1

/-- The digit loop of `strconv.ParseUint(s, 10, 64)`. -/
def parseUintLoop : List Char → Nat → Nat × Option NumError
  | [], n => (n, none)
  | c :: cs, n =>
    if !isDigit c then (0, some NumError.invalid)
    else if n ≥ maxUint64 / 10 + 1 then (maxUint64, some NumError.outOfRange)
    else
      let n1 := n * 10 + digitVal c
      if n1 > maxUint64 then (maxUint64, some NumError.outOfRange)
      else parseUintLoop cs n1

/-- Embedding of `strconv.ParseInt(s, 10, 64)`. -/
def parseInt (s : String) : Int × Option NumError :=
  match s.toList with
  | [] => (0, some NumError.invalid)
  | cs =>
    let (neg, ds) := readSign cs
    match ds with
    | [] => (0, some NumError.invalid)
    | _ =>
      match parseUintLoop ds 0 with
      | (_, some NumError.invalid) => (0, some NumError.invalid)
      | (un, _) =>
        if !neg ∧ un ≥ 2 ^ 63 then ((2 : Int) ^ 63 - 1, some NumError.outOfRange)
        else if neg ∧ un > 2 ^ 63 then (-(2 : Int) ^ 63, some NumError.outOfRange)
        else (if neg then -(un : Int) else (un : Int), none)

/-! ## `math.Round` -/

/-- Embedding of `math.Trunc`: the integer part, towards zero. -/
def mathTrunc (x : ℚ) : ℚ := if 0 ≤ x then (⌊x⌋ : ℚ) else (⌈x⌉ : ℚ)

/-- Embedding of `math.Round`, after its reference implementation
`t := Trunc(x); if Abs(x-t) >= 0.5 { return t + Copysign(1, x) }; return t`. -/
def mathRound (x : ℚ) : ℚ :=
  let t := mathTrunc x
  if |x - t| ≥ 1 / 2 then t + (if 0 ≤ x then 1 else -1) else t

/-! ## Unit conversions of the external `unit` package -/

/-- Modelled from the spec: `(unit.Speed(x) * unit.MilesPerHour).KilometersPerHour()` of the
external package `github.com/martinlindhe/unit`, mph to km/h, `x * 1.609344`. -/
def milesPerHourToKilometersPerHour (x : ℚ) : ℚ := x * 1.609344

/-- Modelled from the spec: `unit.FromFahrenheit(x).Celsius()` of the external package
`github.com/martinlindhe/unit`, degrees Fahrenheit to Celsius, `(x - 32) * 5/9`. -/
def fahrenheitToCelsius (x : ℚ) : ℚ := (x - 32) * 5 / 9

/-- Modelled from the spec: `(unit.Length(x) * unit.Inch).Millimeters()` of the external
package `github.com/martinlindhe/unit`, inch to millimetre, `x * 25.4`. -/
def inchToMillimeters (x : ℚ) : ℚ := x * 25.4

/-! ## The converters -/

/-- Source `convertFloat`. -/
def convertFloat (s : String) : ℚ × Option NumError :=
  let (x, err) := parseFloat s
  (x, err)

/-- Source `convertInt`. -/
def convertInt (s : String) : Int × Option NumError :=
  let (x, err) := parseInt s
  (x, err)

/-- Source `convertWindSpeed`: mph to km/h, one decimal, in exact arithmetic
(`Binary64.convertWindSpeed` is the same in `float64`). -/
def convertWindSpeed (s : String) : ℚ × Option NumError :=
  let (x, err) := parseFloat s
  let x := milesPerHourToKilometersPerHour x
  let x := mathRound (x * 10) / 10
  (x, err)

/-- Source `convertBarometer`: inHg to hPa, one decimal, in exact arithmetic
(`Binary64.convertBarometer` is the same in `float64`). -/
def convertBarometer (s : String) : ℚ × Option NumError :=
  let (x, err) := parseFloat s
  let x := x / 0.029530
  let x := mathRound (x * 10) / 10
  (x, err)

/-- Source `convertTemperature`: Fahrenheit to Celsius, one decimal, in exact arithmetic
(`Binary64.convertTemperature` is the same in `float64`). -/
def convertTemperature (s : String) : ℚ × Option NumError :=
  let (x, err) := parseFloat s
  let x := fahrenheitToCelsius x
  let x := mathRound (x * 10) / 10
  (x, err)

/-- Source `convertRain`: inches to millimetres, one decimal, in exact arithmetic
(`Binary64.convertRain` is the same in `float64`). -/
def convertRain (s : String) : ℚ × Option NumError :=
  let (x, err) := parseFloat s
  let x := inchToMillimeters x
  let x := mathRound (x * 10) / 10
  (x, err)

/-! ## Timestamps -/

/-- A point in time at second resolution, in UTC (the part of `time.Time` the program uses). -/
structure Time where
  year : Nat
  month : Nat
  day : Nat
  hour : Nat
  minute : Nat
  second : Nat
  deriving DecidableEq

/-- The zero value of `time.Time`: January 1, year 1, 00:00:00 UTC. -/
def zeroTime : Time := ⟨1, 1, 1, 0, 0, 0⟩

/-- The only failure of `convertTime`. -/
inductive TimeError where
  | parse
  deriving DecidableEq

/-- Gregorian leap year. -/
def isLeap (y : Nat) : Bool := decide (y % 4 = 0 ∧ (y % 100 ≠ 0 ∨ y % 400 = 0))

/-- Number of days of month `m` in year `y`. -/
def daysIn (m y : Nat) : Nat :=
  if m = 2 then (if isLeap y then 29 else 28)
  else if m = 4 ∨ m = 6 ∨ m = 9 ∨ m = 11 then 30 else 31

/-- The fields of a `Time` name a calendar date and a time of day with a four-digit year. -/
def Time.Valid (t : Time) : Prop :=
  t.year ≤ 9999 ∧ 1 ≤ t.month ∧ t.month ≤ 12 ∧ 1 ≤ t.day ∧ t.day ≤ daysIn t.month t.year ∧
    t.hour < 24 ∧ t.minute < 60 ∧ t.second < 60

instance (t : Time) : Decidable t.Valid := by unfold Time.Valid; infer_instance

/-- Two decimal digits to a number. -/
def num2 (a b : Char) : Nat := digitVal a * 10 + digitVal b

/-- Modelled from the spec: `time.Parse("2006-01-02 15:04:05", s)` of the Go standard
library, as the fixed lexical format `YYYY-MM-DD HH:MM:SS` (UTC, no zone suffix) of a
calendar date and time of day; anything else is a parse failure. -/
def readTimestamp : List Char → Option Time
  | [y1, y2, y3, y4, p1, m1, m2, p2, d1, d2, p3, h1, h2, p4, n1, n2, p5, s1, s2] =>
    let t : Time :=
      ⟨num2 y1 y2 * 100 + num2 y3 y4, num2 m1 m2, num2 d1 d2, num2 h1 h2, num2 n1 n2,
        num2 s1 s2⟩
    if [y1, y2, y3, y4, m1, m2, d1, d2, h1, h2, n1, n2, s1, s2].all isDigit
        ∧ p1 = '-' ∧ p2 = '-' ∧ p3 = ' ' ∧ p4 = ':' ∧ p5 = ':' ∧ t.Valid
    then some t else none
  | _ => none

/-- Source `convertTime`; on failure `time.Parse` returns the zero `Time` with the error. -/
def convertTime (s : String) : Time × Option TimeError :=
  match readTimestamp s.toList with
  | some t => (t, none)
  | none => (zeroTime, some TimeError.parse)

/-! ## Field mapping -/

/-- A field value, the `interface{}` of `map[string]interface{}`: a `float64` or an `int64`. -/
inductive Value where
  | float (x : ℚ)
  | int (n : Int)
  deriving DecidableEq

/-- A field map, `map[string]interface{}`. -/
abbrev Fields := List (String × Value)

/-- The converter a `case` of the `switch` in `convertData` calls. -/
inductive Converter where
  | barometer
  | windSpeed
  | float
  | rain
  | temperature
  | int
  deriving DecidableEq

/-- The call `convertX(v)` of a `case`, its value boxed as a field value. -/
def Converter.apply : Converter → String → Value × Option NumError
  | .barometer, v => ((convertBarometer v).map Value.float id)
  | .windSpeed, v => ((convertWindSpeed v).map Value.float id)
  | .float, v => ((convertFloat v).map Value.float id)
  | .rain, v => ((convertRain v).map Value.float id)
  | .temperature, v => ((convertTemperature v).map Value.float id)
  | .int, v => ((convertInt v).map Value.int id)

/-- The `case`s of the `switch k` in `convertData`, in source order: vendor key, the field
name assigned to, the converter called. -/
def dispatchTable : List (String × String × Converter) :=
  [ ("baromabsin", "barometer_abs", .barometer),
    ("baromrelin", "barometer_rel", .barometer),
    ("windspeedmph", "wind_speed", .windSpeed),
    ("windgustmph", "wind_gust", .windSpeed),
    ("maxdailygust", "wind_gust_daily_max", .windSpeed),
    ("winddir", "wind_dir", .float),
    ("dailyrainin", "rain_daily", .rain),
    ("eventrainin", "rain_event", .rain),
    ("hourlyrainin", "rain_hourly", .rain),
    ("monthlyrainin", "rain_monthly", .rain),
    ("rainratein", "rain_rate", .rain),
    ("totalrainin", "rain_total", .rain),
    ("weeklyrainin", "rain_weekly", .rain),
    ("yearlyrainin", "rain_yearly", .rain),
    ("tempf", "temperature_out", .temperature),
    ("tempinf", "temperature_in_0", .temperature),
    ("temp1f", "temperature_in_1", .temperature),
    ("temp2f", "temperature_in_2", .temperature),
    ("temp3f", "temperature_in_3", .temperature),
    ("temp4f", "temperature_in_4", .temperature),
    ("temp5f", "temperature_in_5", .temperature),
    ("temp6f", "temperature_in_6", .temperature),
    ("temp7f", "temperature_in_7", .temperature),
    ("temp8f", "temperature_in_8", .temperature),
    ("solarradiation", "radiation", .float),
    ("uv", "uv", .int),
    ("humidity", "humidity_out", .float),
    ("humidityin", "humidity_in_0", .float),
    ("humidity1", "humidity_in_1", .float),
    ("humidity2", "humidity_in_2", .float),
    ("humidity3", "humidity_in_3", .float),
    ("humidity4", "humidity_in_4", .float),
    ("humidity5", "humidity_in_5", .float),
    ("humidity6", "humidity_in_6", .float),
    ("humidity7", "humidity_in_7", .float),
    ("humidity8", "humidity_in_8", .float),
    ("soilmoisture1", "soil_moisture_1", .float),
    ("soilmoisture2", "soil_moisture_2", .float),
    ("soilmoisture3", "soil_moisture_3", .float),
    ("soilmoisture4", "soil_moisture_4", .float),
    ("soilmoisture5", "soil_moisture_5", .float),
    ("soilmoisture6", "soil_moisture_6", .float),
    ("soilmoisture7", "soil_moisture_7", .float),
    ("soilmoisture8", "soil_moisture_8", .float),
    ("wh65batt", "battery_wh65", .float),
    ("batt1", "battery_in_1", .float),
    ("batt2", "battery_in_2", .float),
    ("soilbatt1", "battery_soil_1", .float),
    ("soilbatt2", "battery_soil_2", .float) ]

/-- The `switch k`: the `case` selected by the vendor key `k`, if any (exact match). -/
def dispatch (k : String) : Option (String × Converter) := mapGet dispatchTable k

/-- One iteration of the loop `for k, v := range originalData`: the selected `case`
assigns the converter's value to its field, whatever the returned error; a key without a
`case` leaves `fields` as it is. -/
def convertEntry (fields : Fields) (e : String × String) : Fields :=
  match dispatch e.1 with
  | some (name, conv) => mapSet fields name (conv.apply e.2).1
  | none => fields

/-- Source `convertData`. -/
def convertData (originalData : List (String × String)) : Time × Fields :=
  let timestamp :=
    match mapGet originalData "dateutc" with
    | some v => (convertTime v).1
    | none => zeroTime
  (timestamp, originalData.foldl convertEntry [])

/-! ## Field renaming -/

/-- One iteration of the loop of `renameFields`. -/
def renameEntry (names : List (String × String)) (newFields : Fields)
    (e : String × Value) : Fields :=
  match mapGet names e.1 with
  | some newName => mapSet newFields newName e.2
  | none => mapSet newFields e.1 e.2

/-- Source `renameFields`. -/
def renameFields (oldFields : Fields) (names : List (String × String)) : Fields :=
  oldFields.foldl (renameEntry names) []

/-- The output key `renameFields` sends the field name `name` to. -/
def outputName (names : List (String × String)) (name : String) : String :=
  match mapGet names name with
  | some newName => newName
  | none => name

/-! ## Notions of the specification -/

/-- Nearest integer with ties away from zero, as the specification words it: the magnitude
is rounded half up and the sign is kept. -/
def roundHalfAwayFromZero (z : ℚ) : ℚ :=
  if 0 ≤ z then (⌊z + 1 / 2⌋ : ℚ) else -(⌊-z + 1 / 2⌋ : ℚ)

/-- Rounding to one decimal place, half away from zero: `round1(y) = round(10 * y) / 10`. -/
def round1 (y : ℚ) : ℚ := roundHalfAwayFromZero (10 * y) / 10

/-- Exact inverse of the wind-speed formula, km/h to mph. -/
def kilometersPerHourToMilesPerHour (y : ℚ) : ℚ := y / 1.609344

/-- Exact inverse of the barometer formula, hPa to inHg. -/
def hectopascalToInchOfMercury (y : ℚ) : ℚ := y * 0.029530

/-- Exact inverse of the temperature formula, degrees Celsius to Fahrenheit. -/
def celsiusToFahrenheit (y : ℚ) : ℚ := y * 9 / 5 + 32

/-- Exact inverse of the rain formula, millimetre to inch. -/
def millimetersToInch (y : ℚ) : ℚ := y / 25.4

/-- The character of a decimal digit. -/
def digitChar (d : Nat) : Char := Char.ofNat (48 + d % 10)

/-- A number below 100 as two decimal digits. -/
def text2 (n : Nat) : List Char := [digitChar (n / 10), digitChar n]

/-- The text `YYYY-MM-DD HH:MM:SS` of a point in time. -/
def timestampText (t : Time) : String :=
  String.mk (text2 (t.year / 100) ++ text2 t.year ++ ['-'] ++ text2 t.month ++ ['-'] ++
    text2 t.day ++ [' '] ++ text2 t.hour ++ [':'] ++ text2 t.minute ++ [':'] ++
    text2 t.second)

/-- The string `s` is in the format `YYYY-MM-DD HH:MM:SS`: it is the text of a valid point
in time. -/
def InTimestampFormat (s : String) : Prop := ∃ t : Time, t.Valid ∧ s = timestampText t

/-- The value a converter yields from the parsed number zero: 0 for wind speed, barometer,
rain and the float pass-through, the integer 0 for the integer pass-through, and -17.8 for
temperature. -/
def Converter.zeroValue : Converter → Value
  | .temperature => Value.float (-17.8)
  | .int => Value.int 0
  | _ => Value.float 0

/-- The entries of a reading whose key has a `case` in the `switch`. -/
def recognizedEntries (raw : List (String × String)) : List (String × String) :=
  raw.filter (fun e => (dispatch e.1).isSome)

/-! ## Binary floating point

The converters again, with `float64` arithmetic carried out as it is on the machine: every
operation returns the exact result rounded to the nearest binary64 number, ties to even,
with gradual underflow and overflow to infinity.  The two zeros are identified, as Go's
`==` does.  This embedding decides the numerical properties of the rounding converters. -/

namespace Binary64

/-- A `float64`: a finite number, an infinity with its sign (`true` for minus), or NaN. -/
inductive F64 where
  | finite (q : ℚ)
  | inf (neg : Bool)
  | nan
  deriving DecidableEq

/-- The binary exponent whose grid a number is rounded on; numbers below `2 ^ -1022` share
the grid of the subnormals. -/
def exponentOf (y : ℚ) : Int := max (Int.log 2 |y|) (-1022)

/-- The rational `m * b ^ e`, computed with natural-number powers. -/
def scale (b m : Nat) (e : Int) : ℚ :=
  if 0 ≤ e then ((m * b ^ e.toNat : Nat) : ℚ) else (m : ℚ) / ((b ^ (-e).toNat : Nat) : ℚ)

/-- The distance between neighbouring binary64 numbers around `y`. -/
def ulp (y : ℚ) : ℚ := scale 2 1 (exponentOf y - 52)

/-- Nearest integer, ties to the even one. -/
def roundTiesEven (z : ℚ) : Int :=
  if z - ⌊z⌋ < 1 / 2 then ⌊z⌋
  else if 1 / 2 < z - ⌊z⌋ then ⌊z⌋ + 1
  else if ⌊z⌋ % 2 = 0 then ⌊z⌋ else ⌊z⌋ + 1

/-- The rounding of IEEE 754 binary64 arithmetic: the nearest representable number, ties to
even, infinity when the rounded magnitude reaches `2 ^ 1024`. -/
def roundNearest (y : ℚ) : F64 :=
  let r := (roundTiesEven (y / ulp y) : ℚ) * ulp y
  if ((2 ^ 1024 : Nat) : ℚ) ≤ |r| then F64.inf (decide (y < 0)) else F64.finite r

/-- Product `a * b` of `float64`. -/
def F64.mul : F64 → F64 → F64
  | .nan, _ => .nan
  | _, .nan => .nan
  | .finite a, .finite b => roundNearest (a * b)
  | .finite a, .inf t => if a = 0 then .nan else .inf (xor (decide (a < 0)) t)
  | .inf s, .finite b => if b = 0 then .nan else .inf (xor s (decide (b < 0)))
  | .inf s, .inf t => .inf (xor s t)

/-- Quotient `a / b` of `float64`; a zero divisor counts as positive. -/
def F64.div : F64 → F64 → F64
  | .nan, _ => .nan
  | _, .nan => .nan
  | .finite a, .finite b =>
    if b = 0 then (if a = 0 then .nan else .inf (decide (a < 0))) else roundNearest (a / b)
  | .finite _, .inf _ => .finite 0
  | .inf s, .finite b => .inf (xor s (decide (b < 0)))
  | .inf _, .inf _ => .nan

/-- Difference `a - b` of `float64`. -/
def F64.sub : F64 → F64 → F64
  | .nan, _ => .nan
  | _, .nan => .nan
  | .finite a, .finite b => roundNearest (a - b)
  | .finite _, .inf t => .inf (!t)
  | .inf s, .finite _ => .inf s
  | .inf s, .inf t => if s = t then .nan else .inf s

/-- Embedding of `math.Round` on `float64`: exact on finite numbers, the identity on the
infinities and NaN. -/
def F64.round : F64 → F64
  | .finite a => .finite (mathRound a)
  | x => x

/-- Go's `lower(c)`, `c | ('x' - 'X')`. -/
def lower (c : Char) : Char := Char.ofNat (c.toNat ||| 32)

/-- Value of a hexadecimal digit, if `c` is one. -/
def hexVal (c : Char) : Option Nat :=
  if isDigit c then some (digitVal c)
  else if 97 ≤ (lower c).toNat ∧ (lower c).toNat ≤ 102 then some ((lower c).toNat - 87)
  else none

/-- What the mantissa loop of `readFloat` has seen. -/
structure Mantissa where
  value : Nat
  fracDigits : Nat
  sawDot : Bool
  sawDigits : Bool
  underscores : Bool

/-- The mantissa loop of `readFloat`: digits of the base, at most one point, underscores. -/
def scanMantissa (hex : Bool) : List Char → Mantissa → Mantissa × List Char
  | [], m => (m, [])
  | c :: cs, m =>
    if c = '_' then scanMantissa hex cs { m with underscores := true }
    else if c = '.' then
      if m.sawDot then (m, c :: cs) else scanMantissa hex cs { m with sawDot := true }
    else if isDigit c then
      scanMantissa hex cs
        { m with sawDigits := true, value := m.value * (if hex then 16 else 10) + digitVal c,
                 fracDigits := if m.sawDot then m.fracDigits + 1 else m.fracDigits }
    else
      match (if hex then hexVal c else none) with
      | some d =>
        scanMantissa hex cs
          { m with sawDigits := true, value := m.value * 16 + d,
                   fracDigits := if m.sawDot then m.fracDigits + 1 else m.fracDigits }
      | none => (m, c :: cs)

/-- The exponent digits of `readFloat`: digits and underscores, the value no longer growing
once it has reached 10000. -/
def scanExponent : List Char → Nat → Bool → Nat × Bool × List Char
  | [], e, u => (e, u, [])
  | c :: cs, e, u =>
    if c = '_' then scanExponent cs e true
    else if isDigit c then scanExponent cs (if e < 10000 then e * 10 + digitVal c else e) u
    else (e, u, c :: cs)

/-- The state `saw` of `underscoreOK`. -/
inductive Saw where
  | start
  | digit
  | underscore
  | other
  deriving DecidableEq

/-- The loop of `underscoreOK` over the number proper. -/
def underscoreLoop (hex : Bool) : List Char → Saw → Bool
  | [], saw => decide (saw ≠ Saw.underscore)
  | c :: cs, saw =>
    if isDigit c ∨ (hex ∧ (hexVal c).isSome) then underscoreLoop hex cs Saw.digit
    else if c = '_' then
      if saw ≠ Saw.digit then false else underscoreLoop hex cs Saw.underscore
    else if saw = Saw.underscore then false
    else underscoreLoop hex cs Saw.other

/-- Embedding of `underscoreOK`: underscores only between digits, or between a base prefix
and a digit. -/
def underscoreOK (s : List Char) : Bool :=
  let t := (readSign s).2
  match t with
  | a :: b :: rest =>
    if a = '0' ∧ (lower b = 'b' ∨ lower b = 'o' ∨ lower b = 'x') then
      underscoreLoop (decide (lower b = 'x')) rest Saw.digit
    else underscoreLoop false t Saw.start
  | _ => underscoreLoop false t Saw.start

/-- Length of the common beginning of `s` and the lower-case word `w`, ignoring the case
of `s` (`commonPrefixLenIgnoreCase`). -/
def commonLen : List Char → List Char → Nat
  | c :: cs, w :: ws =>
    if (if 65 ≤ c.toNat ∧ c.toNat ≤ 90 then Char.ofNat (c.toNat + 32) else c) = w
    then commonLen cs ws + 1 else 0
  | _, _ => 0

/-- Embedding of `special`: the (possibly signed) words `inf` and `infinity` and the word
`nan`, in any case, when they make up the whole string. -/
def special (s : List Char) : Option F64 :=
  match s with
  | [] => none
  | c :: cs =>
    if c = '+' ∨ c = '-' then
      let n := commonLen cs "infinity".toList
      if (n = 3 ∨ n = 8) ∧ cs.length = n then some (F64.inf (decide (c = '-'))) else none
    else if c = 'i' ∨ c = 'I' then
      let n := commonLen s "infinity".toList
      if (n = 3 ∨ n = 8) ∧ s.length = n then some (F64.inf false) else none
    else if c = 'n' ∨ c = 'N' then
      if commonLen s "nan".toList = 3 ∧ s.length = 3 then some F64.nan else none
    else none

/-- The number a decimal or hexadecimal floating-point literal denotes (`readFloat`), or
`none` when the string is not such a literal. -/
def readFloat (s : List Char) : Option ℚ :=
  let (neg, t) := readSign s
  let hex : Bool :=
    match t with
    | a :: b :: _ :: _ => decide (a = '0' ∧ lower b = 'x')
    | _ => false
  let (m, rest) := scanMantissa hex (if hex then t.drop 2 else t) ⟨0, 0, false, false, false⟩
  if !m.sawDigits then none
  else
    let expPart : Option (Int × Bool × List Char) :=
      match rest with
      | c :: cs =>
        if lower c = (if hex then 'p' else 'e') then
          match cs with
          | [] => none
          | _ =>
            let (eneg, ds) := readSign cs
            match ds with
            | d :: _ =>
              if isDigit d then
                let (e, u, rest') := scanExponent ds 0 false
                some (if eneg then -(e : Int) else (e : Int), u, rest')
              else none
            | [] => none
        else if hex then none else some (0, false, rest)
      | [] => if hex then none else some (0, false, [])
    match expPart with
    | none => none
    | some (e, u, rest') =>
      if (m.underscores ∨ u) ∧ !underscoreOK s then none
      else if rest' ≠ [] then none
      else
        let x : ℚ :=
          if hex then scale 2 m.value (e - 4 * (m.fracDigits : Int))
          else scale 10 m.value (e - (m.fracDigits : Int))
        some (if neg then -x else x)

/-- Embedding of `strconv.ParseFloat(s, 64)`: the nearest `float64` of the literal, an
infinity with `ErrRange` when it is out of range, `0` with `ErrSyntax` when `s` is no
literal. -/
def parseFloat (s : String) : F64 × Option NumError :=
  match special s.toList with
  | some v => (v, none)
  | none =>
    match readFloat s.toList with
    | none => (F64.finite 0, some NumError.invalid)
    | some x =>
      match roundNearest x with
      | F64.inf neg => (F64.inf neg, some NumError.outOfRange)
      | v => (v, none)

/-- Modelled from the spec: `(unit.Speed(x) * unit.MilesPerHour).KilometersPerHour()` of the
external package `github.com/martinlindhe/unit`, mph to km/h, `x * 1.609344` in `float64`. -/
def milesPerHourToKilometersPerHour (x : F64) : F64 := x.mul (roundNearest 1.609344)

/-- Modelled from the spec: `unit.FromFahrenheit(x).Celsius()` of the external package
`github.com/martinlindhe/unit`, degrees Fahrenheit to Celsius, `(x - 32) * 5/9` in
`float64`, evaluated from left to right. -/
def fahrenheitToCelsius (x : F64) : F64 :=
  ((x.sub (F64.finite 32)).mul (F64.finite 5)).div (F64.finite 9)

/-- Modelled from the spec: `(unit.Length(x) * unit.Inch).Millimeters()` of the external
package `github.com/martinlindhe/unit`, inch to millimetre, `x * 25.4` in `float64`. -/
def inchToMillimeters (x : F64) : F64 := x.mul (roundNearest 25.4)

/-- Source `convertWindSpeed` in `float64`. -/
def convertWindSpeed (s : String) : F64 × Option NumError :=
  let (x, err) := parseFloat s
  let x := milesPerHourToKilometersPerHour x
  let x := ((x.mul (F64.finite 10)).round).div (F64.finite 10)
  (x, err)

/-- Source `convertBarometer` in `float64`; the constant `0.029530` is the nearest
`float64` of the literal. -/
def convertBarometer (s : String) : F64 × Option NumError :=
  let (x, err) := parseFloat s
  let x := x.div (roundNearest 0.029530)
  let x := ((x.mul (F64.finite 10)).round).div (F64.finite 10)
  (x, err)

/-- Source `convertTemperature` in `float64`. -/
def convertTemperature (s : String) : F64 × Option NumError :=
  let (x, err) := parseFloat s
  let x := fahrenheitToCelsius x
  let x := ((x.mul (F64.finite 10)).round).div (F64.finite 10)
  (x, err)

/-- Source `convertRain` in `float64`. -/
def convertRain (s : String) : F64 × Option NumError :=
  let (x, err) := parseFloat s
  let x := inchToMillimeters x
  let x := ((x.mul (F64.finite 10)).round).div (F64.finite 10)
  (x, err)

/-- The exact value `y` is away from a rounding tie of the first decimal: `10 * y` is
within `1/2 - 10 ^ -6` of an integer, hence at least `10 ^ -6` from every half-integer. -/
def AwayFromTie (y : ℚ) : Prop := ∃ m : ℤ, |10 * y - m| ≤ 1 / 2 - 1 / 10 ^ 6

end Binary64

/-! # Properties -/

/-! ## Lemmas on maps -/

theorem mapGet_mapSet {β : Type} (m : List (String × β)) (k k' : String) (v : β) :
    mapGet (mapSet m k v) k' = if k = k' then some v else mapGet m k' := by
  induction m with
  | nil => simp [mapSet, mapGet]
  | cons e rest ih =>
    obtain ⟨a, b⟩ := e
    by_cases h : a = k
    · subst h
      by_cases h' : a = k' <;> simp [mapSet, mapGet, h']
    · by_cases h' : k = k'
      · subst h'
        simp [mapSet, mapGet, h, ih]
      · by_cases hk' : a = k'
        · subst hk'
          simp [mapSet, mapGet, h, h']
        · simp [mapSet, mapGet, h, h', hk', ih]

theorem mapKeys_mapSet {β : Type} (m : List (String × β)) (k : String) (v : β) :
    mapKeys (mapSet m k v) = if k ∈ mapKeys m then mapKeys m else mapKeys m ++ [k] := by
  induction m with
  | nil => simp [mapSet, mapKeys]
  | cons e rest ih =>
    obtain ⟨a, b⟩ := e
    by_cases h : a = k
    · subst h
      simp [mapSet, mapKeys]
    · have h' : ¬ k = a := fun h1 => h h1.symm
      simp only [mapKeys] at ih
      by_cases hm : k ∈ List.map Prod.fst rest
      · simp [mapSet, mapKeys, h, h', hm, ih]
      · simp [mapSet, mapKeys, h, h', hm, ih]

theorem mem_mapKeys_mapSet {β : Type} (m : List (String × β)) (k k' : String) (v : β) :
    k' ∈ mapKeys (mapSet m k v) ↔ k' = k ∨ k' ∈ mapKeys m := by
  rw [mapKeys_mapSet]
  by_cases h : k ∈ mapKeys m
  · simp only [h, if_true]
    constructor
    · exact Or.inr
    · rintro (rfl | h') <;> assumption
  · simp only [h, if_false, List.mem_append, List.mem_singleton]
    tauto

theorem wellFormed_mapSet {β : Type} (m : List (String × β)) (k : String) (v : β)
    (h : WellFormed m) : WellFormed (mapSet m k v) := by
  unfold WellFormed at *
  rw [mapKeys_mapSet]
  by_cases hk : k ∈ mapKeys m
  · simpa [hk] using h
  · simp only [hk, if_false]
    rw [List.nodup_append]
    refine ⟨h, List.nodup_singleton k, ?_⟩
    intro a ha hb
    simp only [List.mem_singleton] at hb
    subst hb
    exact hk ha

theorem length_mapSet {β : Type} (m : List (String × β)) (k : String) (v : β) :
    (mapSet m k v).length = if k ∈ mapKeys m then m.length else m.length + 1 := by
  have h := congrArg List.length (mapKeys_mapSet m k v)
  by_cases hk : k ∈ mapKeys m
  · rw [if_pos hk] at h ⊢
    simpa [mapKeys] using h
  · rw [if_neg hk] at h ⊢
    simpa [mapKeys] using h

theorem mapGet_eq_none_iff {β : Type} (m : List (String × β)) (k : String) :
    mapGet m k = none ↔ k ∉ mapKeys m := by
  induction m with
  | nil => simp [mapGet, mapKeys]
  | cons e rest ih =>
    obtain ⟨a, b⟩ := e
    simp only [mapKeys] at ih
    by_cases h : a = k
    · simp [mapGet, mapKeys, h]
    · have h' : ¬ k = a := fun h1 => h h1.symm
      simp [mapGet, mapKeys, h, h', ih]

theorem mem_of_mapGet {β : Type} (m : List (String × β)) (k : String) (v : β)
    (h : mapGet m k = some v) : (k, v) ∈ m := by
  induction m with
  | nil => simp [mapGet] at h
  | cons e rest ih =>
    obtain ⟨a, b⟩ := e
    by_cases hk : a = k
    · subst hk
      simp [mapGet] at h
      simp [h]
    · simp only [mapGet, hk, if_false] at h
      exact List.mem_cons_of_mem _ (ih h)

theorem mapGet_of_mem {β : Type} (m : List (String × β)) (k : String) (v : β)
    (hwf : WellFormed m) (h : (k, v) ∈ m) : mapGet m k = some v := by
  induction m with
  | nil => simp at h
  | cons e rest ih =>
    obtain ⟨a, b⟩ := e
    simp only [WellFormed, mapKeys, List.map_cons, List.nodup_cons] at hwf
    rcases List.mem_cons.mp h with h1 | h1
    · cases h1
      simp [mapGet]
    · have hne : a ≠ k := by
        rintro rfl
        exact hwf.1 (List.mem_map_of_mem Prod.fst h1)
      simp only [mapGet, hne, if_false]
      exact ih hwf.2 h1

theorem wellFormed_tail {β : Type} (e : String × β) (m : List (String × β))
    (h : WellFormed (e :: m)) : e.1 ∉ mapKeys m ∧ WellFormed m := by
  simpa [WellFormed, mapKeys] using h

/-! ## The dispatch table -/

theorem dispatch_mem (k c : String) (conv : Converter) (h : dispatch k = some (c, conv)) :
    (k, c, conv) ∈ dispatchTable :=
  mem_of_mapGet dispatchTable k (c, conv) h

theorem dispatchTable_names_nodup : (dispatchTable.map (fun e => e.2.1)).Nodup := by decide

theorem dispatchTable_keys_nodup : WellFormed dispatchTable := by decide

/-- Two vendor keys assigned to the same field name are the same key. -/
theorem dispatch_injective (k₁ k₂ c : String) (f₁ f₂ : Converter)
    (h₁ : dispatch k₁ = some (c, f₁)) (h₂ : dispatch k₂ = some (c, f₂)) : k₁ = k₂ := by
  have m₁ := dispatch_mem k₁ c f₁ h₁
  have m₂ := dispatch_mem k₂ c f₂ h₂
  have := List.inj_on_of_nodup_map dispatchTable_names_nodup m₁ m₂ rfl
  exact congrArg Prod.fst this

/-! ## The loop of `convertData` -/

theorem convertEntry_of_none (fields : Fields) (e : String × String)
    (h : dispatch e.1 = none) : convertEntry fields e = fields := by
  simp [convertEntry, h]

theorem convertEntry_of_some (fields : Fields) (e : String × String) (c : String)
    (conv : Converter) (h : dispatch e.1 = some (c, conv)) :
    convertEntry fields e = mapSet fields c (conv.apply e.2).1 := by
  simp [convertEntry, h]

/-- A field no entry of `raw` is assigned to keeps what it held before the loop. -/
theorem mapGet_foldl_untouched (raw : List (String × String)) (acc : Fields) (c : String)
    (h : ∀ e ∈ raw, ∀ conv, dispatch e.1 ≠ some (c, conv)) :
    mapGet (raw.foldl convertEntry acc) c = mapGet acc c := by
  induction raw generalizing acc with
  | nil => rfl
  | cons e rest ih =>
    rw [List.foldl_cons, ih _ (fun e' he' => h e' (List.mem_cons_of_mem _ he'))]
    cases hd : dispatch e.1 with
    | none => rw [convertEntry_of_none _ _ hd]
    | some p =>
      obtain ⟨n, conv⟩ := p
      rw [convertEntry_of_some _ _ _ _ hd, mapGet_mapSet]
      have : n ≠ c := by
        rintro rfl
        exact h e (List.mem_cons_self _ _) conv hd
      simp [this]

/-- The field of a recognized key present in `raw` holds its converter's value after the loop. -/
theorem mapGet_foldl_written (raw : List (String × String)) (acc : Fields)
    (k v c : String) (conv : Converter) (hwf : WellFormed raw) (hmem : (k, v) ∈ raw)
    (hd : dispatch k = some (c, conv)) :
    mapGet (raw.foldl convertEntry acc) c = some (conv.apply v).1 := by
  induction raw generalizing acc with
  | nil => simp at hmem
  | cons e rest ih =>
    obtain ⟨hnot, hwf'⟩ := wellFormed_tail e rest hwf
    rw [List.foldl_cons]
    rcases List.mem_cons.mp hmem with h1 | h1
    · subst h1
      rw [mapGet_foldl_untouched, convertEntry_of_some _ _ _ _ hd, mapGet_mapSet]
      · simp
      · intro e' he' conv' hd'
        have : e'.1 = k := dispatch_injective _ _ _ _ _ hd' hd
        apply hnot
        show k ∈ mapKeys rest
        rw [← this]
        exact List.mem_map_of_mem Prod.fst he'
    · exact ih _ hwf' h1

/-- Every key of the map after the loop was there before or is the field of a recognized key
of `raw`. -/
theorem mem_mapKeys_foldl (raw : List (String × String)) (acc : Fields) (c : String)
    (h : c ∈ mapKeys (raw.foldl convertEntry acc)) :
    c ∈ mapKeys acc ∨ ∃ k v conv, (k, v) ∈ raw ∧ dispatch k = some (c, conv) := by
  induction raw generalizing acc with
  | nil => exact Or.inl h
  | cons e rest ih =>
    rw [List.foldl_cons] at h
    rcases ih _ h with h1 | ⟨k, v, conv, hm, hd⟩
    · cases hd : dispatch e.1 with
      | none =>
        rw [convertEntry_of_none _ _ hd] at h1
        exact Or.inl h1
      | some p =>
        obtain ⟨n, conv⟩ := p
        rw [convertEntry_of_some _ _ _ _ hd, mem_mapKeys_mapSet] at h1
        rcases h1 with rfl | h1
        · exact Or.inr ⟨e.1, e.2, conv, List.mem_cons_self _ _, hd⟩
        · exact Or.inl h1
    · exact Or.inr ⟨k, v, conv, List.mem_cons_of_mem _ hm, hd⟩

/-- The loop skips the entries of a key without a `case`. -/
theorem foldl_mapDelete (raw : List (String × String)) (acc : Fields) (k : String)
    (h : dispatch k = none) :
    (mapDelete raw k).foldl convertEntry acc = raw.foldl convertEntry acc := by
  induction raw generalizing acc with
  | nil => rfl
  | cons e rest ih =>
    by_cases hk : e.1 = k
    · have : mapDelete (e :: rest) k = mapDelete rest k := by
        simp [mapDelete, List.filter_cons, hk]
      rw [this, List.foldl_cons, convertEntry_of_none _ _ (hk ▸ h), ih]
    · have : mapDelete (e :: rest) k = e :: mapDelete rest k := by
        simp [mapDelete, List.filter_cons, hk]
      rw [this, List.foldl_cons, List.foldl_cons, ih]

/-- Assigning to a key without a `case` does not change what the loop builds. -/
theorem foldl_mapSet (raw : List (String × String)) (acc : Fields) (k w : String)
    (h : dispatch k = none) :
    (mapSet raw k w).foldl convertEntry acc = raw.foldl convertEntry acc := by
  induction raw generalizing acc with
  | nil => simp [mapSet, convertEntry, h]
  | cons e rest ih =>
    obtain ⟨a, b⟩ := e
    by_cases hk : a = k
    · subst hk
      simp [mapSet, convertEntry, h]
    · simp only [mapSet, hk, if_false, List.foldl_cons]
      exact ih _

/-! ## Rounding -/

/-- Go's `math.Round` is rounding to the nearest integer with ties away from zero. -/
theorem mathRound_eq_roundHalfAwayFromZero (x : ℚ) : mathRound x = roundHalfAwayFromZero x := by
  unfold mathRound mathTrunc roundHalfAwayFromZero
  by_cases hx : 0 ≤ x
  · simp only [hx, if_true]
    have h1 : (⌊x⌋ : ℚ) ≤ x := Int.floor_le x
    have h2 : x < ⌊x⌋ + 1 := Int.lt_floor_add_one x
    rw [abs_of_nonneg (by linarith)]
    by_cases hf : x - ⌊x⌋ ≥ 1 / 2
    · rw [if_pos hf]
      have : ⌊x + 1 / 2⌋ = ⌊x⌋ + 1 := by
        rw [Int.floor_eq_iff]; push_cast; constructor <;> linarith
      rw [this]; push_cast; ring
    · rw [if_neg hf]
      push_neg at hf
      have : ⌊x + 1 / 2⌋ = ⌊x⌋ := by
        rw [Int.floor_eq_iff]; constructor <;> linarith
      rw [this]
  · simp only [hx, if_false]
    have h1 : x ≤ (⌈x⌉ : ℚ) := Int.le_ceil x
    have h2 : (⌈x⌉ : ℚ) < x + 1 := Int.ceil_lt_add_one x
    rw [abs_of_nonpos (by linarith)]
    by_cases hf : -(x - ⌈x⌉) ≥ 1 / 2
    · rw [if_pos hf]
      have : ⌊-x + 1 / 2⌋ = -⌈x⌉ + 1 := by
        rw [Int.floor_eq_iff]; push_cast; constructor <;> linarith
      rw [this]; push_cast; ring
    · rw [if_neg hf]
      push_neg at hf
      have : ⌊-x + 1 / 2⌋ = -⌈x⌉ := by
        rw [Int.floor_eq_iff]; push_cast; constructor <;> linarith
      rw [this]; push_cast; ring

/-- The value of `math.Round` at a number strictly within one half of an integer. -/
theorem mathRound_of_near (x : ℚ) (n : ℤ) (h1 : (n : ℚ) - 1 / 2 < x) (h2 : x < n + 1 / 2) :
    mathRound x = n := by
  rw [mathRound_eq_roundHalfAwayFromZero]
  unfold roundHalfAwayFromZero
  by_cases hx : 0 ≤ x
  · rw [if_pos hx]
    have : ⌊x + 1 / 2⌋ = n := by
      rw [Int.floor_eq_iff]; constructor <;> linarith
    rw [this]
  · rw [if_neg hx]
    have : ⌊-x + 1 / 2⌋ = -n := by
      rw [Int.floor_eq_iff]; push_cast; constructor <;> linarith
    rw [this]; push_cast; ring

/-- Rounding moves a number by at most one half. -/
theorem abs_mathRound_sub_le (x : ℚ) : |mathRound x - x| ≤ 1 / 2 := by
  rw [mathRound_eq_roundHalfAwayFromZero]
  unfold roundHalfAwayFromZero
  by_cases hx : 0 ≤ x
  · rw [if_pos hx]
    have h1 : (⌊x + 1 / 2⌋ : ℚ) ≤ x + 1 / 2 := Int.floor_le _
    have h2 : x + 1 / 2 < ⌊x + 1 / 2⌋ + 1 := Int.lt_floor_add_one _
    rw [abs_le]; constructor <;> linarith
  · rw [if_neg hx]
    have h1 : (⌊-x + 1 / 2⌋ : ℚ) ≤ -x + 1 / 2 := Int.floor_le _
    have h2 : -x + 1 / 2 < ⌊-x + 1 / 2⌋ + 1 := Int.lt_floor_add_one _
    rw [abs_le]; constructor <;> linarith

/-! ## The field map of `convertData` -/

/-- The field map holds, under the field name of a recognized key present in the reading,
the value its converter returned, whether or not the converter also returned an error. -/
theorem convertData_field (raw : List (String × String)) (k v c : String) (conv : Converter)
    (hwf : WellFormed raw) (hmem : (k, v) ∈ raw) (hd : dispatch k = some (c, conv)) :
    mapGet (convertData raw).2 c = some (conv.apply v).1 :=
  mapGet_foldl_written raw [] k v c conv hwf hmem hd

/-- The field map has no entry under the field name of a recognized key absent from the
reading. -/
theorem convertData_field_absent (raw : List (String × String)) (k c : String)
    (conv : Converter) (hd : dispatch k = some (c, conv)) (habs : k ∉ mapKeys raw) :
    mapGet (convertData raw).2 c = none := by
  show mapGet (raw.foldl convertEntry []) c = none
  rw [mapGet_foldl_untouched]
  · rfl
  · intro e he conv' hd'
    have : e.1 = k := dispatch_injective _ _ _ _ _ hd' hd
    exact habs (this ▸ List.mem_map_of_mem Prod.fst he)

/-- The field map has no entry under a name that is no field name of the `switch`. -/
theorem convertData_field_unknown (raw : List (String × String)) (c : String)
    (h : ∀ k conv, dispatch k ≠ some (c, conv)) : mapGet (convertData raw).2 c = none := by
  show mapGet (raw.foldl convertEntry []) c = none
  rw [mapGet_foldl_untouched]
  · rfl
  · intro e _ conv'
    exact h e.1 conv'

/-- What `convertTemperature` returns for a string that is no number. -/
theorem convertTemperature_not_a_number :
    convertTemperature "not_a_number" = (-89 / 5, some NumError.invalid) := by
  have hp : parseFloat "not_a_number" = (0, some NumError.invalid) := by rfl
  have hr : mathRound (fahrenheitToCelsius 0 * 10) = ((-178 : ℤ) : ℚ) := by
    apply mathRound_of_near <;> norm_num [fahrenheitToCelsius]
  simp only [convertTemperature, hp, hr]
  norm_num

/-- C1, as stated, fails: the reading `{"tempf": "not_a_number"}` carries the recognized
key `tempf` with a value that fails numeric parsing, and the field map of `convertData`
has an entry under `temperature_out`, holding -17.8. -/
theorem C1_counterexample :
    dispatch "tempf" = some ("temperature_out", Converter.temperature) ∧
    (convertTemperature "not_a_number").2 = some NumError.invalid ∧
    mapGet (convertData [("tempf", "not_a_number")]).2 "temperature_out"
      = some (Value.float (-89 / 5)) := by
  refine ⟨by rfl, by rfl, ?_⟩
  rw [convertData_field [("tempf", "not_a_number")] "tempf" "not_a_number" "temperature_out"
    Converter.temperature (by decide) (by simp) (by rfl)]
  simp [Converter.apply, convertTemperature_not_a_number]

/-- C1, amended: when a recognized vendor key of a reading carries a value that fails
numeric parsing, the field map of `convertData` has an entry under the key's canonical
name, holding the value the converter returned together with its error. -/
theorem convertData_keeps_failed_field (raw : List (String × String)) (k v c : String)
    (conv : Converter) (x : Value) (err : NumError) (hwf : WellFormed raw)
    (hmem : (k, v) ∈ raw) (hd : dispatch k = some (c, conv))
    (hfail : conv.apply v = (x, some err)) :
    mapGet (convertData raw).2 c = some x ∧ c ∈ mapKeys (convertData raw).2 := by
  have h := mapGet_foldl_written raw [] k v c conv hwf hmem hd
  rw [hfail] at h
  refine ⟨h, ?_⟩
  by_contra hc
  rw [← mapGet_eq_none_iff] at hc
  rw [show (convertData raw).2 = raw.foldl convertEntry [] from rfl, h] at hc
  exact Option.noConfusion hc

/-- Instance of the amended C1 at the reading `{"tempf": "not_a_number", "humidity": "55"}`. -/
theorem convertData_keeps_failed_field_witness :
    WellFormed [("tempf", "not_a_number"), ("humidity", "55")] ∧
    Converter.temperature.apply "not_a_number" = (Value.float (-89 / 5), some NumError.invalid) ∧
    (mapGet (convertData [("tempf", "not_a_number"), ("humidity", "55")]).2 "temperature_out"
        = some (Value.float (-89 / 5)) ∧
      "temperature_out" ∈ mapKeys (convertData [("tempf", "not_a_number"), ("humidity", "55")]).2) :=
  ⟨by decide, by simp [Converter.apply, convertTemperature_not_a_number],
    convertData_keeps_failed_field [("tempf", "not_a_number"), ("humidity", "55")] "tempf"
      "not_a_number" "temperature_out" Converter.temperature (Value.float (-89 / 5))
      NumError.invalid (by decide) (by simp) (by rfl)
      (by simp [Converter.apply, convertTemperature_not_a_number])⟩

/-- C2: a key `k` without a `case` in the `switch` (the match is exact, so `TEMPF` and
`foo` are such keys) contributes nothing: the field map of `convertData` is the one of the
reading without `k`, and every key of the field map is the canonical name of a recognized
vendor key present in the reading. -/
theorem convertData_ignores_unknown (raw : List (String × String)) (k : String)
    (hk : dispatch k = none) :
    (convertData raw).2 = (convertData (mapDelete raw k)).2 ∧
    ∀ c ∈ mapKeys (convertData raw).2,
      ∃ k' v conv, (k', v) ∈ raw ∧ dispatch k' = some (c, conv) := by
  constructor
  · exact (foldl_mapDelete raw [] k hk).symm
  · intro c hc
    rcases mem_mapKeys_foldl raw [] c hc with h | h
    · simp [mapKeys] at h
    · exact h

/-- Instance of C2 at a reading with the unknown keys `TEMPF` and `foo`. -/
theorem convertData_ignores_unknown_witness :
    dispatch "TEMPF" = none ∧
    ((convertData [("TEMPF", "98.6"), ("tempf", "50"), ("foo", "1")]).2
        = (convertData (mapDelete [("TEMPF", "98.6"), ("tempf", "50"), ("foo", "1")] "TEMPF")).2 ∧
      ∀ c ∈ mapKeys (convertData [("TEMPF", "98.6"), ("tempf", "50"), ("foo", "1")]).2,
        ∃ k' v conv, (k', v) ∈ [("TEMPF", "98.6"), ("tempf", "50"), ("foo", "1")] ∧
          dispatch k' = some (c, conv)) :=
  ⟨by decide, convertData_ignores_unknown [("TEMPF", "98.6"), ("tempf", "50"), ("foo", "1")]
    "TEMPF" (by decide)⟩

/-- C3: for a recognized vendor key present in the reading whose value parses, the field
map of `convertData` holds, under the canonical name the `switch` pairs with the key,
exactly the result of the associated converter applied to the value. -/
theorem convertData_converts (raw : List (String × String)) (k v c : String)
    (conv : Converter) (x : Value) (hwf : WellFormed raw) (hmem : (k, v) ∈ raw)
    (hd : dispatch k = some (c, conv)) (hok : conv.apply v = (x, none)) :
    mapGet (convertData raw).2 c = some x := by
  have h := mapGet_foldl_written raw [] k v c conv hwf hmem hd
  rw [hok] at h
  exact h

/-- A string the float parser accepts is converted without error. -/
theorem convertFloat_ok (s : String) (h : (parseFloat s).2 = none) :
    Converter.float.apply s = (Value.float (convertFloat s).1, none) := by
  simp [Converter.apply, convertFloat, Prod.map, h]

theorem convertTemperature_ok (s : String) (h : (parseFloat s).2 = none) :
    Converter.temperature.apply s = (Value.float (convertTemperature s).1, none) := by
  simp [Converter.apply, convertTemperature, Prod.map, h]

theorem convertWindSpeed_ok (s : String) (h : (parseFloat s).2 = none) :
    Converter.windSpeed.apply s = (Value.float (convertWindSpeed s).1, none) := by
  simp [Converter.apply, convertWindSpeed, Prod.map, h]

theorem convertBarometer_ok (s : String) (h : (parseFloat s).2 = none) :
    Converter.barometer.apply s = (Value.float (convertBarometer s).1, none) := by
  simp [Converter.apply, convertBarometer, Prod.map, h]

theorem convertRain_ok (s : String) (h : (parseFloat s).2 = none) :
    Converter.rain.apply s = (Value.float (convertRain s).1, none) := by
  simp [Converter.apply, convertRain, Prod.map, h]

theorem convertInt_ok (s : String) (h : (parseInt s).2 = none) :
    Converter.int.apply s = (Value.int (convertInt s).1, none) := by
  simp [Converter.apply, convertInt, Prod.map, h]

/-- Instances of C3 for the six vendor keys the claim names. -/
theorem convertData_converts_witness :
    WellFormed [("tempf", "98.6"), ("tempinf", "70"), ("maxdailygust", "10"),
      ("baromrelin", "29.92"), ("humidity", "55"), ("uv", "3")] ∧
    mapGet (convertData [("tempf", "98.6"), ("tempinf", "70"), ("maxdailygust", "10"),
      ("baromrelin", "29.92"), ("humidity", "55"), ("uv", "3")]).2 "temperature_out"
      = some (Value.float (convertTemperature "98.6").1) ∧
    mapGet (convertData [("tempf", "98.6"), ("tempinf", "70"), ("maxdailygust", "10"),
      ("baromrelin", "29.92"), ("humidity", "55"), ("uv", "3")]).2 "temperature_in_0"
      = some (Value.float (convertTemperature "70").1) ∧
    mapGet (convertData [("tempf", "98.6"), ("tempinf", "70"), ("maxdailygust", "10"),
      ("baromrelin", "29.92"), ("humidity", "55"), ("uv", "3")]).2 "wind_gust_daily_max"
      = some (Value.float (convertWindSpeed "10").1) ∧
    mapGet (convertData [("tempf", "98.6"), ("tempinf", "70"), ("maxdailygust", "10"),
      ("baromrelin", "29.92"), ("humidity", "55"), ("uv", "3")]).2 "barometer_rel"
      = some (Value.float (convertBarometer "29.92").1) ∧
    mapGet (convertData [("tempf", "98.6"), ("tempinf", "70"), ("maxdailygust", "10"),
      ("baromrelin", "29.92"), ("humidity", "55"), ("uv", "3")]).2 "humidity_out"
      = some (Value.float (convertFloat "55").1) ∧
    mapGet (convertData [("tempf", "98.6"), ("tempinf", "70"), ("maxdailygust", "10"),
      ("baromrelin", "29.92"), ("humidity", "55"), ("uv", "3")]).2 "uv"
      = some (Value.int (convertInt "3").1) :=
  ⟨by decide,
    convertData_converts _ "tempf" "98.6" "temperature_out" Converter.temperature _
      (by decide) (by simp) (by rfl) (convertTemperature_ok "98.6" (by rfl)),
    convertData_converts _ "tempinf" "70" "temperature_in_0" Converter.temperature _
      (by decide) (by simp) (by rfl) (convertTemperature_ok "70" (by rfl)),
    convertData_converts _ "maxdailygust" "10" "wind_gust_daily_max" Converter.windSpeed _
      (by decide) (by simp) (by rfl) (convertWindSpeed_ok "10" (by rfl)),
    convertData_converts _ "baromrelin" "29.92" "barometer_rel" Converter.barometer _
      (by decide) (by simp) (by rfl) (convertBarometer_ok "29.92" (by rfl)),
    convertData_converts _ "humidity" "55" "humidity_out" Converter.float _
      (by decide) (by simp) (by rfl) (convertFloat_ok "55" (by rfl)),
    convertData_converts _ "uv" "3" "uv" Converter.int _
      (by decide) (by simp) (by rfl) (convertInt_ok "3" (by rfl))⟩

/-! ## The loop of `renameFields` -/

theorem renameEntry_eq (names : List (String × String)) (acc : Fields) (e : String × Value) :
    renameEntry names acc e = mapSet acc (outputName names e.1) e.2 := by
  unfold renameEntry outputName
  cases mapGet names e.1 <;> rfl

/-- An output key no entry of `m` is sent to keeps what it held before the loop. -/
theorem mapGet_rename_untouched (names : List (String × String)) (m acc : Fields)
    (t : String) (h : ∀ e ∈ m, outputName names e.1 ≠ t) :
    mapGet (m.foldl (renameEntry names) acc) t = mapGet acc t := by
  induction m generalizing acc with
  | nil => rfl
  | cons e rest ih =>
    rw [List.foldl_cons, ih _ (fun e' he' => h e' (List.mem_cons_of_mem _ he')),
      renameEntry_eq, mapGet_mapSet, if_neg (h e (List.mem_cons_self _ _))]

/-- An entry of `m` whose output key no other entry is sent to is found under that key. -/
theorem mapGet_rename_written (names : List (String × String)) (m acc : Fields)
    (name : String) (value : Value) (hwf : WellFormed m) (hmem : (name, value) ∈ m)
    (hfree : ∀ e ∈ m, e.1 ≠ name → outputName names e.1 ≠ outputName names name) :
    mapGet (m.foldl (renameEntry names) acc) (outputName names name) = some value := by
  induction m generalizing acc with
  | nil => simp at hmem
  | cons e rest ih =>
    obtain ⟨hnot, hwf'⟩ := wellFormed_tail e rest hwf
    rw [List.foldl_cons]
    rcases List.mem_cons.mp hmem with h1 | h1
    · subst h1
      rw [mapGet_rename_untouched, renameEntry_eq, mapGet_mapSet]
      · simp
      · intro e' he'
        apply hfree e' (List.mem_cons_of_mem _ he')
        intro heq
        apply hnot
        show name ∈ mapKeys rest
        rw [← heq]
        exact List.mem_map_of_mem Prod.fst he'
    · exact ih _ hwf' h1 (fun e' he' => hfree e' (List.mem_cons_of_mem _ he'))

/-- Every entry after the loop was there before or comes from an entry of `m`. -/
theorem mapGet_rename_origin (names : List (String × String)) (m acc : Fields)
    (t : String) (v : Value) (h : mapGet (m.foldl (renameEntry names) acc) t = some v) :
    mapGet acc t = some v ∨ ∃ name, (name, v) ∈ m ∧ outputName names name = t := by
  induction m generalizing acc with
  | nil => exact Or.inl h
  | cons e rest ih =>
    rw [List.foldl_cons] at h
    rcases ih _ h with h1 | ⟨name, hm, ho⟩
    · rw [renameEntry_eq, mapGet_mapSet] at h1
      by_cases ht : outputName names e.1 = t
      · rw [if_pos ht] at h1
        refine Or.inr ⟨e.1, ?_, ht⟩
        have : e.2 = v := Option.some.inj h1
        rw [← this]
        exact List.mem_cons_self _ _
      · rw [if_neg ht] at h1
        exact Or.inl h1
    · exact Or.inr ⟨name, List.mem_cons_of_mem _ hm, ho⟩

/-- The loop adds at most one entry per entry of `m`. -/
theorem length_rename_le (names : List (String × String)) (m acc : Fields) :
    (m.foldl (renameEntry names) acc).length ≤ acc.length + m.length := by
  induction m generalizing acc with
  | nil => simp
  | cons e rest ih =>
    rw [List.foldl_cons]
    have h1 := ih (renameEntry names acc e)
    have h2 : (renameEntry names acc e).length ≤ acc.length + 1 := by
      rw [renameEntry_eq, length_mapSet]
      split <;> omega
    simp only [List.length_cons]
    omega

/-- The loop adds exactly one entry per entry of `m` when the output keys are fresh and
pairwise distinct. -/
theorem length_rename_eq (names : List (String × String)) (m acc : Fields)
    (hnd : ((mapKeys m).map (outputName names)).Nodup)
    (hfresh : ∀ e ∈ m, outputName names e.1 ∉ mapKeys acc) :
    (m.foldl (renameEntry names) acc).length = acc.length + m.length := by
  induction m generalizing acc with
  | nil => simp
  | cons e rest ih =>
    simp only [mapKeys, List.map_cons, List.nodup_cons, List.mem_map, not_exists, not_and,
      forall_exists_index, and_imp, forall_apply_eq_imp_iff₂] at hnd
    rw [List.foldl_cons, ih]
    · rw [renameEntry_eq, length_mapSet, if_neg (hfresh e (List.mem_cons_self _ _))]
      simp only [List.length_cons]
      omega
    · simpa [mapKeys] using hnd.2
    · intro e' he'
      rw [renameEntry_eq, mem_mapKeys_mapSet]
      rintro (h | h)
      · exact hnd.1 e' he' h
      · exact hfresh e' (List.mem_cons_of_mem _ he') h

/-! ## `renameFields` -/

/-- C4: for every entry `(name, value)` of a field map `m`, `renameFields m o` holds `value`
under `o[name]` when `name` is a key of `o` and under `name` otherwise (the key
`outputName o name`), provided no other entry of `m` is sent to the same output key; and
every entry of the output arises this way from an entry of `m`. -/
theorem renameFields_entries (m : Fields) (o : List (String × String)) (hwf : WellFormed m) :
    (∀ name value, (name, value) ∈ m →
      (∀ e ∈ m, e.1 ≠ name → outputName o e.1 ≠ outputName o name) →
      mapGet (renameFields m o) (outputName o name) = some value) ∧
    (∀ t v, mapGet (renameFields m o) t = some v →
      ∃ name, (name, v) ∈ m ∧ outputName o name = t) := by
  constructor
  · intro name value hmem hfree
    exact mapGet_rename_written o m [] name value hwf hmem hfree
  · intro t v h
    rcases mapGet_rename_origin o m [] t v h with h1 | h1
    · simp [mapGet] at h1
    · exact h1

/-- Instance of C4: the override `temperature_out` to `outside_temp` applied to `{"temperature_out": 37.0}` gives exactly `{"outside_temp": 37.0}`. -/
theorem renameFields_entries_witness :
    WellFormed [("temperature_out", Value.float 37)] ∧
    renameFields [("temperature_out", Value.float 37)] [("temperature_out", "outside_temp")]
      = [("outside_temp", Value.float 37)] ∧
    ((∀ name value, (name, value) ∈ [("temperature_out", Value.float 37)] →
      (∀ e ∈ [("temperature_out", Value.float 37)], e.1 ≠ name →
        outputName [("temperature_out", "outside_temp")] e.1
          ≠ outputName [("temperature_out", "outside_temp")] name) →
      mapGet (renameFields [("temperature_out", Value.float 37)]
        [("temperature_out", "outside_temp")])
        (outputName [("temperature_out", "outside_temp")] name) = some value) ∧
    (∀ t v, mapGet (renameFields [("temperature_out", Value.float 37)]
        [("temperature_out", "outside_temp")]) t = some v →
      ∃ name, (name, v) ∈ [("temperature_out", Value.float 37)] ∧
        outputName [("temperature_out", "outside_temp")] name = t)) :=
  ⟨by decide, by rfl,
    renameFields_entries [("temperature_out", Value.float 37)]
      [("temperature_out", "outside_temp")] (by decide)⟩

/-- C5, as stated, fails: an override whose target is the name of another field makes two
entries collide, and the output has one entry where the input has two. -/
theorem C5_counterexample :
    WellFormed [("temperature_out", Value.float 1), ("humidity_out", Value.float 2)] ∧
    (renameFields [("temperature_out", Value.float 1), ("humidity_out", Value.float 2)]
      [("temperature_out", "humidity_out")]).length = 1 ∧
    [("temperature_out", Value.float 1), ("humidity_out", Value.float 2)].length = 2 := by
  refine ⟨by decide, by rfl, by rfl⟩

/-- C5, amended: `renameFields m o` never has more entries than `m`, and it has exactly as
many whenever no two fields of `m` are sent to the same output key; an override can
rename a field, and it suppresses one only by sending it to the output key of another. -/
theorem renameFields_length (m : Fields) (o : List (String × String)) :
    (renameFields m o).length ≤ m.length ∧
    (((mapKeys m).map (outputName o)).Nodup → (renameFields m o).length = m.length) := by
  constructor
  · have := length_rename_le o m []
    simpa [renameFields] using this
  · intro hnd
    have := length_rename_eq o m [] hnd (by simp [mapKeys])
    simpa [renameFields] using this

/-- Instance of the amended C5 at a renaming without collision. -/
theorem renameFields_length_witness :
    ((mapKeys [("temperature_out", Value.float 37), ("humidity_out", Value.float 55)]).map
      (outputName [("temperature_out", "outside_temp")])).Nodup ∧
    (renameFields [("temperature_out", Value.float 37), ("humidity_out", Value.float 55)]
      [("temperature_out", "outside_temp")]).length = 2 :=
  ⟨by decide,
    (renameFields_length [("temperature_out", Value.float 37), ("humidity_out", Value.float 55)]
      [("temperature_out", "outside_temp")]).2 (by decide)⟩

/-! ## Field-scoped failures -/

/-- The field of a recognized key is a function of the value the reading has under that key. -/
theorem convertData_field_eq (raw : List (String × String)) (k c : String) (conv : Converter)
    (hwf : WellFormed raw) (hd : dispatch k = some (c, conv)) :
    mapGet (convertData raw).2 c = (mapGet raw k).map (fun v => (conv.apply v).1) := by
  cases hg : mapGet raw k with
  | none =>
    rw [convertData_field_absent raw k c conv hd ((mapGet_eq_none_iff raw k).mp hg)]
    rfl
  | some v =>
    rw [convertData_field raw k v c conv hwf (mem_of_mapGet raw k v hg) hd]
    rfl

theorem dispatch_dateutc : dispatch "dateutc" = none := by decide

/-- C10: conversion failures are field-scoped.  Setting a recognized vendor key `k` of a
reading to any value `s` leaves the field map of `convertData` unchanged at every
canonical name other than the one `k` maps to, and leaves the timestamp unchanged. -/
theorem convertData_field_scoped (raw : List (String × String)) (k s c₀ : String)
    (conv₀ : Converter) (hwf : WellFormed raw) (hd : dispatch k = some (c₀, conv₀)) :
    (∀ c, c ≠ c₀ →
      mapGet (convertData (mapSet raw k s)).2 c = mapGet (convertData raw).2 c) ∧
    (convertData (mapSet raw k s)).1 = (convertData raw).1 := by
  have hwf' : WellFormed (mapSet raw k s) := wellFormed_mapSet raw k s hwf
  constructor
  · intro c hc
    by_cases hex : ∃ k' conv', dispatch k' = some (c, conv')
    · obtain ⟨k', conv', hd'⟩ := hex
      have hne : k ≠ k' := by
        rintro rfl
        rw [hd] at hd'
        exact hc (congrArg Prod.fst (Option.some.inj hd')).symm
      rw [convertData_field_eq _ k' c conv' hwf' hd', convertData_field_eq _ k' c conv' hwf hd',
        mapGet_mapSet, if_neg hne]
    · push_neg at hex
      rw [convertData_field_unknown _ c hex, convertData_field_unknown _ c hex]
  · have hne : k ≠ "dateutc" := by
      rintro rfl
      rw [dispatch_dateutc] at hd
      exact Option.noConfusion hd
    show (match mapGet (mapSet raw k s) "dateutc" with
        | some v => (convertTime v).1
        | none => zeroTime)
      = (match mapGet raw "dateutc" with
        | some v => (convertTime v).1
        | none => zeroTime)
    rw [mapGet_mapSet, if_neg hne]

/-- Instance of C10: replacing the value of `tempf` by a string that is no number. -/
theorem convertData_field_scoped_witness :
    WellFormed [("dateutc", "2023-06-01 12:00:00"), ("tempf", "98.6"), ("humidity", "55")] ∧
    ((∀ c, c ≠ "temperature_out" →
      mapGet (convertData (mapSet [("dateutc", "2023-06-01 12:00:00"), ("tempf", "98.6"),
        ("humidity", "55")] "tempf" "not_a_number")).2 c
      = mapGet (convertData [("dateutc", "2023-06-01 12:00:00"), ("tempf", "98.6"),
        ("humidity", "55")]).2 c) ∧
    (convertData (mapSet [("dateutc", "2023-06-01 12:00:00"), ("tempf", "98.6"),
        ("humidity", "55")] "tempf" "not_a_number")).1
      = (convertData [("dateutc", "2023-06-01 12:00:00"), ("tempf", "98.6"),
        ("humidity", "55")]).1) :=
  ⟨by decide,
    convertData_field_scoped [("dateutc", "2023-06-01 12:00:00"), ("tempf", "98.6"),
      ("humidity", "55")] "tempf" "not_a_number" "temperature_out" Converter.temperature
      (by decide) (by rfl)⟩

/-! ## Rounding to one decimal in exact arithmetic -/

/-- One-decimal rounding of a number whose tenfold is strictly within one half of `n`. -/
theorem round1_of_near (y : ℚ) (n : ℤ) (h1 : (n : ℚ) - 1 / 2 < 10 * y)
    (h2 : 10 * y < n + 1 / 2) : round1 y = n / 10 := by
  unfold round1
  rw [← mathRound_eq_roundHalfAwayFromZero, mathRound_of_near _ n h1 h2]

theorem parseFloat_98_6 : parseFloat "98.6" = (98.6, none) := by
  have h : parseFloat "98.6" = (scale10 986 (-1), none) := by rfl
  rw [h]; norm_num [scale10]

/-! ## Timestamps -/

theorem isDigit_digitChar (d : Nat) : isDigit (digitChar d) = true := by
  unfold digitChar
  have h : d % 10 < 10 := Nat.mod_lt _ (by norm_num)
  generalize d % 10 = r at h
  interval_cases r <;> rfl

theorem digitVal_digitChar (d : Nat) : digitVal (digitChar d) = d % 10 := by
  unfold digitChar
  have h : d % 10 < 10 := Nat.mod_lt _ (by norm_num)
  generalize d % 10 = r at h
  interval_cases r <;> rfl

theorem digitVal_lt (c : Char) (h : isDigit c = true) : digitVal c < 10 := by
  simp only [isDigit, decide_eq_true_eq] at h
  unfold digitVal
  omega

theorem digitChar_of_isDigit (c : Char) (n : Nat) (h : isDigit c = true)
    (hn : n % 10 = digitVal c) : digitChar n = c := by
  simp only [isDigit, decide_eq_true_eq] at h
  unfold digitChar
  rw [hn]
  unfold digitVal
  have : 48 + (c.toNat - 48) = c.toNat := by omega
  rw [this, Char.ofNat_toNat]

theorem num2_text2 (n : Nat) (h : n < 100) :
    num2 (digitChar (n / 10)) (digitChar n) = n := by
  unfold num2
  rw [digitVal_digitChar, digitVal_digitChar]
  omega

/-- Reading the text of a valid point in time gives that point in time back. -/
theorem readTimestamp_timestampText (t : Time) (h : t.Valid) :
    readTimestamp (timestampText t).toList = some t := by
  obtain ⟨hy, hm1, hm2, hd1, hd2, hh, hn, hs⟩ := h
  have hd3 : t.day ≤ 31 := by
    refine le_trans hd2 ?_
    unfold daysIn
    split
    · split <;> omega
    · split <;> omega
  have e1 : num2 (digitChar (t.year / 100 / 10)) (digitChar (t.year / 100)) * 100
      + num2 (digitChar (t.year / 10)) (digitChar t.year) = t.year := by
    unfold num2
    simp only [digitVal_digitChar]
    omega
  have e2 := num2_text2 t.month (by omega)
  have e3 := num2_text2 t.day (by omega)
  have e4 := num2_text2 t.hour (by omega)
  have e5 := num2_text2 t.minute (by omega)
  have e6 := num2_text2 t.second (by omega)
  have hv : t.Valid := ⟨hy, hm1, hm2, hd1, hd2, hh, hn, hs⟩
  simp only [timestampText, String.toList, text2, List.cons_append, List.nil_append,
    readTimestamp, e1, e2, e3, e4, e5, e6, List.all_cons, List.all_nil, isDigit_digitChar,
    Bool.and_self, true_and, and_self, hv, if_true]

theorem convertTime_timestampText (t : Time) (h : t.Valid) :
    convertTime (timestampText t) = (t, none) := by
  unfold convertTime
  rw [readTimestamp_timestampText t h]

/-- A string that reads as a point in time is the text of that point, which is valid. -/
theorem readTimestamp_some (s : String) (t : Time) (h : readTimestamp s.toList = some t) :
    t.Valid ∧ s = timestampText t := by
  unfold readTimestamp at h
  split at h
  · rename_i y1 y2 y3 y4 p1 m1 m2 p2 d1 d2 p3 h1 h2 p4 n1 n2 p5 s1 s2 hl
    dsimp only at h
    split at h
    · rename_i hc
      have ht := Option.some.inj h
      obtain ⟨hdig, hp1, hp2, hp3, hp4, hp5, hv⟩ := hc
      simp only [List.all_cons, List.all_nil, Bool.and_true, Bool.and_eq_true] at hdig
      obtain ⟨a1, a2, a3, a4, a5, a6, a7, a8, a9, a10, a11, a12, a13, a14⟩ := hdig
      have b1 := digitVal_lt _ a1
      have b2 := digitVal_lt _ a2
      have b3 := digitVal_lt _ a3
      have b4 := digitVal_lt _ a4
      have b5 := digitVal_lt _ a5
      have b6 := digitVal_lt _ a6
      have b7 := digitVal_lt _ a7
      have b8 := digitVal_lt _ a8
      have b9 := digitVal_lt _ a9
      have b10 := digitVal_lt _ a10
      have b11 := digitVal_lt _ a11
      have b12 := digitVal_lt _ a12
      have b13 := digitVal_lt _ a13
      have b14 := digitVal_lt _ a14
      rw [← ht]
      refine ⟨hv, ?_⟩
      have hs : s = String.mk s.toList := rfl
      rw [hs, hl]
      simp only [timestampText, text2, List.cons_append, List.nil_append, num2]
      subst hp1 hp2 hp3 hp4 hp5
      rw [digitChar_of_isDigit y1 _ a1 (by omega), digitChar_of_isDigit y2 _ a2 (by omega),
        digitChar_of_isDigit y3 _ a3 (by omega), digitChar_of_isDigit y4 _ a4 (by omega),
        digitChar_of_isDigit m1 _ a5 (by omega), digitChar_of_isDigit m2 _ a6 (by omega),
        digitChar_of_isDigit d1 _ a7 (by omega), digitChar_of_isDigit d2 _ a8 (by omega),
        digitChar_of_isDigit h1 _ a9 (by omega), digitChar_of_isDigit h2 _ a10 (by omega),
        digitChar_of_isDigit n1 _ a11 (by omega), digitChar_of_isDigit n2 _ a12 (by omega),
        digitChar_of_isDigit s1 _ a13 (by omega), digitChar_of_isDigit s2 _ a14 (by omega)]
    · exact Option.noConfusion h
  · exact Option.noConfusion h

/-- A string that is not in the format is rejected, with the zero time. -/
theorem convertTime_of_not_format (s : String) (h : ¬ InTimestampFormat s) :
    convertTime s = (zeroTime, some TimeError.parse) := by
  unfold convertTime
  cases hr : readTimestamp s.toList with
  | none => rfl
  | some t =>
    exact absurd ⟨t, readTimestamp_some s t hr⟩ h

theorem not_inTimestampFormat (s : String) (h : readTimestamp s.toList = none) :
    ¬ InTimestampFormat s := by
  rintro ⟨t, hv, rfl⟩
  rw [readTimestamp_timestampText t hv] at h
  exact Option.noConfusion h

/-- What `convertTemperature` returns for `98.6`. -/
theorem convertTemperature_98_6 : convertTemperature "98.6" = (37, none) := by
  have hr : mathRound (fahrenheitToCelsius 98.6 * 10) = ((370 : ℤ) : ℚ) := by
    apply mathRound_of_near <;> norm_num [fahrenheitToCelsius]
  simp only [convertTemperature, parseFloat_98_6, hr]
  norm_num

/-- C7: for the reading `{"dateutc": "2023-06-01 12:00:00", "tempf": "98.6"}`, in either
iteration order, `convertData` returns the timestamp 2023-06-01T12:00:00 UTC and a field
map whose only entry is `temperature_out = 37.0`; and for every reading whose `dateutc`
value is the `YYYY-MM-DD HH:MM:SS` text of a valid date and time, the returned timestamp
is that date and time. -/
theorem convertData_timestamp :
    convertData [("dateutc", "2023-06-01 12:00:00"), ("tempf", "98.6")]
      = (⟨2023, 6, 1, 12, 0, 0⟩, [("temperature_out", Value.float 37)]) ∧
    convertData [("tempf", "98.6"), ("dateutc", "2023-06-01 12:00:00")]
      = (⟨2023, 6, 1, 12, 0, 0⟩, [("temperature_out", Value.float 37)]) ∧
    ∀ (raw : List (String × String)) (t : Time), t.Valid →
      mapGet raw "dateutc" = some (timestampText t) → (convertData raw).1 = t := by
  have h1 : convertData [("dateutc", "2023-06-01 12:00:00"), ("tempf", "98.6")]
      = (⟨2023, 6, 1, 12, 0, 0⟩,
        [("temperature_out", Value.float (convertTemperature "98.6").1)]) := by rfl
  have h2 : convertData [("tempf", "98.6"), ("dateutc", "2023-06-01 12:00:00")]
      = (⟨2023, 6, 1, 12, 0, 0⟩,
        [("temperature_out", Value.float (convertTemperature "98.6").1)]) := by rfl
  rw [convertTemperature_98_6] at h1 h2
  refine ⟨h1, h2, ?_⟩
  intro raw t hv hg
  show (match mapGet raw "dateutc" with
      | some v => (convertTime v).1
      | none => zeroTime) = t
  rw [hg]
  show (convertTime (timestampText t)).1 = t
  rw [convertTime_timestampText t hv]

/-- Instance of the general part of C7 at the reading of the scenario. -/
theorem convertData_timestamp_witness :
    (⟨2023, 6, 1, 12, 0, 0⟩ : Time).Valid ∧
    mapGet [("dateutc", "2023-06-01 12:00:00"), ("tempf", "98.6")] "dateutc"
      = some (timestampText ⟨2023, 6, 1, 12, 0, 0⟩) ∧
    (convertData [("dateutc", "2023-06-01 12:00:00"), ("tempf", "98.6")]).1
      = ⟨2023, 6, 1, 12, 0, 0⟩ :=
  ⟨by decide, by rfl,
    convertData_timestamp.2.2 [("dateutc", "2023-06-01 12:00:00"), ("tempf", "98.6")]
      ⟨2023, 6, 1, 12, 0, 0⟩ (by decide) (by rfl)⟩

/-- C8: when the key `dateutc` is absent from the reading, or present with a value that is
not in the format `YYYY-MM-DD HH:MM:SS`, `convertData` returns the zero time, and the field
map is the one of the same reading with any other, or no, `dateutc` entry. -/
theorem convertData_bad_timestamp (raw : List (String × String))
    (h : mapGet raw "dateutc" = none ∨
      ∃ v, mapGet raw "dateutc" = some v ∧ ¬ InTimestampFormat v) :
    (convertData raw).1 = zeroTime ∧
    (∀ w, (convertData (mapSet raw "dateutc" w)).2 = (convertData raw).2) ∧
    (convertData (mapDelete raw "dateutc")).2 = (convertData raw).2 := by
  refine ⟨?_, ?_, ?_⟩
  · show (match mapGet raw "dateutc" with
        | some v => (convertTime v).1
        | none => zeroTime) = zeroTime
    rcases h with h | ⟨v, hg, hv⟩
    · rw [h]
    · rw [hg]
      show (convertTime v).1 = zeroTime
      rw [convertTime_of_not_format v hv]
  · intro w
    exact foldl_mapSet raw [] "dateutc" w dispatch_dateutc
  · exact foldl_mapDelete raw [] "dateutc" dispatch_dateutc

/-- Instance of C8 at a reading whose `dateutc` value has a zone suffix. -/
theorem convertData_bad_timestamp_witness :
    (mapGet [("dateutc", "2023-06-01T12:00:00Z"), ("tempf", "98.6")] "dateutc" = none ∨
      ∃ v, mapGet [("dateutc", "2023-06-01T12:00:00Z"), ("tempf", "98.6")] "dateutc" = some v ∧
        ¬ InTimestampFormat v) ∧
    ((convertData [("dateutc", "2023-06-01T12:00:00Z"), ("tempf", "98.6")]).1 = zeroTime ∧
    (∀ w, (convertData (mapSet [("dateutc", "2023-06-01T12:00:00Z"), ("tempf", "98.6")]
        "dateutc" w)).2
      = (convertData [("dateutc", "2023-06-01T12:00:00Z"), ("tempf", "98.6")]).2) ∧
    (convertData (mapDelete [("dateutc", "2023-06-01T12:00:00Z"), ("tempf", "98.6")]
        "dateutc")).2
      = (convertData [("dateutc", "2023-06-01T12:00:00Z"), ("tempf", "98.6")]).2) :=
  ⟨Or.inr ⟨"2023-06-01T12:00:00Z", by rfl, not_inTimestampFormat _ (by rfl)⟩,
    convertData_bad_timestamp [("dateutc", "2023-06-01T12:00:00Z"), ("tempf", "98.6")]
      (Or.inr ⟨"2023-06-01T12:00:00Z", by rfl, not_inTimestampFormat _ (by rfl)⟩)⟩

/-! ## Well-formed outputs and iteration order -/

theorem wellFormed_nil {β : Type} : WellFormed ([] : List (String × β)) := by
  simp [WellFormed, mapKeys]

theorem wellFormed_foldl_convertEntry (raw : List (String × String)) (acc : Fields)
    (h : WellFormed acc) : WellFormed (raw.foldl convertEntry acc) := by
  induction raw generalizing acc with
  | nil => exact h
  | cons e rest ih =>
    rw [List.foldl_cons]
    apply ih
    cases hd : dispatch e.1 with
    | none => rw [convertEntry_of_none _ _ hd]; exact h
    | some p =>
      obtain ⟨n, conv⟩ := p
      rw [convertEntry_of_some _ _ _ _ hd]
      exact wellFormed_mapSet _ _ _ h

theorem wellFormed_convertData (raw : List (String × String)) :
    WellFormed (convertData raw).2 :=
  wellFormed_foldl_convertEntry raw [] wellFormed_nil

theorem wellFormed_foldl_renameEntry (names : List (String × String)) (m acc : Fields)
    (h : WellFormed acc) : WellFormed (m.foldl (renameEntry names) acc) := by
  induction m generalizing acc with
  | nil => exact h
  | cons e rest ih =>
    rw [List.foldl_cons]
    apply ih
    rw [renameEntry_eq]
    exact wellFormed_mapSet _ _ _ h

theorem wellFormed_renameFields (m : Fields) (names : List (String × String)) :
    WellFormed (renameFields m names) :=
  wellFormed_foldl_renameEntry names m [] wellFormed_nil

/-- Two well-formed maps with the same entries give the same lookups. -/
theorem mapGet_perm {β : Type} (m₁ m₂ : List (String × β)) (hwf : WellFormed m₁)
    (hp : m₁.Perm m₂) (k : String) : mapGet m₁ k = mapGet m₂ k := by
  have hwf₂ : WellFormed m₂ := by
    unfold WellFormed mapKeys at *
    exact (hp.map Prod.fst).nodup_iff.mp hwf
  cases h₁ : mapGet m₁ k with
  | some v =>
    exact (mapGet_of_mem m₂ k v hwf₂ (hp.subset (mem_of_mapGet m₁ k v h₁))).symm
  | none =>
    cases h₂ : mapGet m₂ k with
    | none => rfl
    | some v =>
      have := mapGet_of_mem m₁ k v hwf (hp.symm.subset (mem_of_mapGet m₂ k v h₂))
      rw [h₁] at this
      exact Option.noConfusion this

/-- The loop adds one entry per recognized entry when the fields written are fresh. -/
theorem length_foldl_convertEntry (raw : List (String × String)) (acc : Fields)
    (hwf : WellFormed raw)
    (hfresh : ∀ e ∈ raw, ∀ c conv, dispatch e.1 = some (c, conv) → c ∉ mapKeys acc) :
    (raw.foldl convertEntry acc).length = acc.length + (recognizedEntries raw).length := by
  induction raw generalizing acc with
  | nil => simp [recognizedEntries]
  | cons e rest ih =>
    obtain ⟨hnot, hwf'⟩ := wellFormed_tail e rest hwf
    rw [List.foldl_cons]
    cases hd : dispatch e.1 with
    | none =>
      rw [convertEntry_of_none _ _ hd,
        ih acc hwf' (fun e' he' => hfresh e' (List.mem_cons_of_mem _ he'))]
      simp [recognizedEntries, List.filter_cons, hd]
    | some p =>
      obtain ⟨n, conv⟩ := p
      rw [convertEntry_of_some _ _ _ _ hd, ih _ hwf']
      · rw [length_mapSet, if_neg (hfresh e (List.mem_cons_self _ _) n conv hd)]
        simp only [recognizedEntries, List.filter_cons, hd, Option.isSome_some, if_true,
          List.length_cons]
        omega
      · intro e' he' c conv' hd'
        rw [mem_mapKeys_mapSet]
        rintro (h | h)
        · subst h
          have : e'.1 = e.1 := dispatch_injective _ _ _ _ _ hd' hd
          exact hnot (this ▸ List.mem_map_of_mem Prod.fst he')
        · exact hfresh e' (List.mem_cons_of_mem _ he') c conv' hd' h

/-- C11: the `switch` of `convertData` is injective: a vendor name has one `case`, and no
two distinct vendor names are assigned the same canonical name.  Hence, for every reading,
no output entry is written twice (the field map has one entry per recognized entry of the
reading, under pairwise distinct names), and the field map does not depend on the order
in which the entries of the reading are iterated. -/
theorem dispatch_injective_order_free :
    WellFormed dispatchTable ∧
    (∀ k₁ k₂ c f₁ f₂, dispatch k₁ = some (c, f₁) → dispatch k₂ = some (c, f₂) → k₁ = k₂) ∧
    (∀ raw : List (String × String), WellFormed raw →
      (convertData raw).2.length = (recognizedEntries raw).length ∧
      WellFormed (convertData raw).2) ∧
    (∀ raw₁ raw₂ : List (String × String), WellFormed raw₁ → raw₁.Perm raw₂ →
      (convertData raw₁).1 = (convertData raw₂).1 ∧
      ∀ c, mapGet (convertData raw₁).2 c = mapGet (convertData raw₂).2 c) := by
  refine ⟨dispatchTable_keys_nodup, dispatch_injective, ?_, ?_⟩
  · intro raw hwf
    refine ⟨?_, wellFormed_convertData raw⟩
    have := length_foldl_convertEntry raw [] hwf (by simp [mapKeys])
    simpa [convertData] using this
  · intro raw₁ raw₂ hwf hp
    have hwf₂ : WellFormed raw₂ := by
      unfold WellFormed mapKeys at *
      exact (hp.map Prod.fst).nodup_iff.mp hwf
    constructor
    · show (match mapGet raw₁ "dateutc" with
          | some v => (convertTime v).1
          | none => zeroTime)
        = (match mapGet raw₂ "dateutc" with
          | some v => (convertTime v).1
          | none => zeroTime)
      rw [mapGet_perm raw₁ raw₂ hwf hp]
    · intro c
      by_cases hex : ∃ k conv, dispatch k = some (c, conv)
      · obtain ⟨k, conv, hd⟩ := hex
        rw [convertData_field_eq _ k c conv hwf hd, convertData_field_eq _ k c conv hwf₂ hd,
          mapGet_perm raw₁ raw₂ hwf hp]
      · push_neg at hex
        rw [convertData_field_unknown _ c hex, convertData_field_unknown _ c hex]

/-- Instance of C11 at a reading with three recognized keys and one unknown key, and at
the same reading iterated in another order. -/
theorem dispatch_injective_order_free_witness :
    WellFormed [("tempf", "98.6"), ("foo", "1"), ("humidity", "55"), ("uv", "3")] ∧
    [("tempf", "98.6"), ("foo", "1"), ("humidity", "55"), ("uv", "3")].Perm
      [("uv", "3"), ("humidity", "55"), ("foo", "1"), ("tempf", "98.6")] ∧
    (convertData [("tempf", "98.6"), ("foo", "1"), ("humidity", "55"), ("uv", "3")]).2.length
      = 3 ∧
    ∀ c, mapGet (convertData [("tempf", "98.6"), ("foo", "1"), ("humidity", "55"),
        ("uv", "3")]).2 c
      = mapGet (convertData [("uv", "3"), ("humidity", "55"), ("foo", "1"),
        ("tempf", "98.6")]).2 c :=
  ⟨by decide, by decide,
    (dispatch_injective_order_free.2.2.1 _ (by decide)).1,
    (dispatch_injective_order_free.2.2.2 _ _ (by decide) (by decide)).2⟩

/-! ## Renaming without effect -/

theorem mapSet_of_not_mem {β : Type} (m : List (String × β)) (k : String) (v : β)
    (h : k ∉ mapKeys m) : mapSet m k v = m ++ [(k, v)] := by
  induction m with
  | nil => rfl
  | cons e rest ih =>
    obtain ⟨a, b⟩ := e
    simp only [mapKeys, List.map_cons, List.mem_cons, not_or] at h
    have hne : ¬ a = k := fun h1 => h.1 h1.symm
    simp only [mapSet, hne, if_false, List.cons_append]
    rw [ih h.2]

theorem outputName_of_none (names : List (String × String)) (name : String)
    (h : mapGet names name = none) : outputName names name = name := by
  simp [outputName, h]

/-- The loop appends the entries of `m` as they are when none of their names has an override
and all names are fresh and pairwise distinct. -/
theorem foldl_renameEntry_of_no_override (names : List (String × String)) (m acc : Fields)
    (hwf : WellFormed (acc ++ m)) (hno : ∀ e ∈ m, mapGet names e.1 = none) :
    m.foldl (renameEntry names) acc = acc ++ m := by
  induction m generalizing acc with
  | nil => simp
  | cons e rest ih =>
    have hfresh : e.1 ∉ mapKeys acc := by
      unfold WellFormed mapKeys at hwf
      rw [List.map_append, List.map_cons] at hwf
      have := (List.nodup_append.mp hwf).2.2
      intro hmem
      exact this hmem (List.mem_cons_self _ _)
    rw [List.foldl_cons, renameEntry_eq,
      outputName_of_none _ _ (hno e (List.mem_cons_self _ _)), mapSet_of_not_mem _ _ _ hfresh,
      ih]
    · simp
    · simpa using hwf
    · exact fun e' he' => hno e' (List.mem_cons_of_mem _ he')

/-- A well-formed field map none of whose names has an override is left as it is. -/
theorem renameFields_of_no_override (m : Fields) (names : List (String × String))
    (hwf : WellFormed m) (hno : ∀ k ∈ mapKeys m, mapGet names k = none) :
    renameFields m names = m := by
  have := foldl_renameEntry_of_no_override names m [] (by simpa using hwf)
    (fun e he => hno e.1 (List.mem_map_of_mem Prod.fst he))
  simpa [renameFields] using this

/-- C12: when no key of `renameFields m o` is itself a key of the override table `o`,
applying the renamer a second time changes nothing. -/
theorem renameFields_idempotent (m : Fields) (o : List (String × String))
    (h : ∀ k ∈ mapKeys (renameFields m o), mapGet o k = none) :
    renameFields (renameFields m o) o = renameFields m o :=
  renameFields_of_no_override (renameFields m o) o (wellFormed_renameFields m o) h

/-- Instance of C12 at the override `temperature_out` to `outside_temp`. -/
theorem renameFields_idempotent_witness :
    (∀ k ∈ mapKeys (renameFields [("temperature_out", Value.float 37),
        ("humidity_out", Value.float 55)] [("temperature_out", "outside_temp")]),
      mapGet [("temperature_out", "outside_temp")] k = none) ∧
    renameFields (renameFields [("temperature_out", Value.float 37),
        ("humidity_out", Value.float 55)] [("temperature_out", "outside_temp")])
        [("temperature_out", "outside_temp")]
      = [("outside_temp", Value.float 37), ("humidity_out", Value.float 55)] := by
  have hk : mapKeys (renameFields [("temperature_out", Value.float 37),
      ("humidity_out", Value.float 55)] [("temperature_out", "outside_temp")])
      = ["outside_temp", "humidity_out"] := by rfl
  have hno : ∀ k ∈ mapKeys (renameFields [("temperature_out", Value.float 37),
        ("humidity_out", Value.float 55)] [("temperature_out", "outside_temp")]),
      mapGet [("temperature_out", "outside_temp")] k = none := by
    rw [hk]
    decide
  refine ⟨hno, ?_⟩
  rw [renameFields_idempotent _ _ hno]
  rfl

/-- C17: `renameFields m o` is `m` itself, with the same keys and the same values, when the
override table `o` is empty (or nil, which looks up the same), and more generally when no
key of `m` is a key of `o`; with no overrides configured, the names handed on by
`reportData` are exactly the canonical names of `convertData`. -/
theorem renameFields_identity (m : Fields) (o : List (String × String))
    (hwf : WellFormed m) :
    renameFields m [] = m ∧
    ((∀ k ∈ mapKeys m, mapGet o k = none) → renameFields m o = m) ∧
    (∀ raw : List (String × String), renameFields (convertData raw).2 [] = (convertData raw).2) :=
  ⟨renameFields_of_no_override m [] hwf (fun _ _ => rfl),
    fun hno => renameFields_of_no_override m o hwf hno,
    fun raw => renameFields_of_no_override _ [] (wellFormed_convertData raw) (fun _ _ => rfl)⟩

/-- Instance of C17 at a field map without the overridden name `rain_daily`. -/
theorem renameFields_identity_witness :
    WellFormed [("temperature_out", Value.float 37), ("humidity_out", Value.float 55)] ∧
    (∀ k ∈ mapKeys [("temperature_out", Value.float 37), ("humidity_out", Value.float 55)],
      mapGet [("rain_daily", "rain_today")] k = none) ∧
    renameFields [("temperature_out", Value.float 37), ("humidity_out", Value.float 55)]
        [("rain_daily", "rain_today")]
      = [("temperature_out", Value.float 37), ("humidity_out", Value.float 55)] :=
  ⟨by decide, by decide,
    (renameFields_identity [("temperature_out", Value.float 37),
      ("humidity_out", Value.float 55)] [("rain_daily", "rain_today")] (by decide)).2.1
      (by decide)⟩

/-! ## Colliding output keys -/

theorem outputName_of_some (names : List (String × String)) (name t : String)
    (h : mapGet names name = some t) : outputName names name = t := by
  simp [outputName, h]

/-- The entry visited last among those sent to `t` is the one found under `t`. -/
theorem mapGet_rename_last (names : List (String × String)) (front back : Fields)
    (n t : String) (v : Value) (hn : outputName names n = t)
    (hlast : ∀ e ∈ back, outputName names e.1 ≠ t) :
    mapGet (renameFields (front ++ (n, v) :: back) names) t = some v := by
  unfold renameFields
  rw [List.foldl_append, List.foldl_cons, mapGet_rename_untouched _ _ _ _ hlast,
    renameEntry_eq, mapGet_mapSet]
  simp [hn]

/-- A key under which a map holds a value occurs once among the keys of a well-formed map. -/
theorem count_mapKeys_of_mapGet {β : Type} (m : List (String × β)) (k : String) (v : β)
    (hwf : WellFormed m) (h : mapGet m k = some v) : (mapKeys m).count k = 1 := by
  apply List.count_eq_one_of_mem hwf
  by_contra hc
  rw [← mapGet_eq_none_iff, h] at hc
  exact Option.noConfusion hc

/-- C14, as stated, fails: `temperature_in_0` and `temperature_in_1` are both overridden to
`temperature_out`, and the value found under `temperature_out` is the one of neither, but
the one of the field `temperature_out` itself, visited after them. -/
theorem C14_counterexample :
    WellFormed [("temperature_in_0", Value.float 1), ("temperature_in_1", Value.float 2),
      ("temperature_out", Value.float 3)] ∧
    mapGet [("temperature_in_0", "temperature_out"), ("temperature_in_1", "temperature_out")]
      "temperature_in_0" = some "temperature_out" ∧
    mapGet [("temperature_in_0", "temperature_out"), ("temperature_in_1", "temperature_out")]
      "temperature_in_1" = some "temperature_out" ∧
    renameFields [("temperature_in_0", Value.float 1), ("temperature_in_1", Value.float 2),
        ("temperature_out", Value.float 3)]
        [("temperature_in_0", "temperature_out"), ("temperature_in_1", "temperature_out")]
      = [("temperature_out", Value.float 3)] := by
  refine ⟨by decide, by rfl, by rfl, by rfl⟩

/-- C14, amended: when two names of a field map `m` are overridden by `o` to the same
target `t`, and no entry of `m` visited after the later of the two is sent to `t`, then
`renameFields m o` has exactly one entry under `t`, holding the value of the later of the
two; the earlier one is overwritten. -/
theorem renameFields_collision (m : Fields) (o : List (String × String))
    (l₁ l₂ l₃ : Fields) (n₁ n₂ t : String) (v₁ v₂ : Value)
    (hm : m = (l₁ ++ (n₁, v₁) :: l₂) ++ (n₂, v₂) :: l₃)
    (h₁ : mapGet o n₁ = some t) (h₂ : mapGet o n₂ = some t)
    (hlast : ∀ e ∈ l₃, outputName o e.1 ≠ t) :
    outputName o n₁ = t ∧ mapGet (renameFields m o) t = some v₂ ∧
      (mapKeys (renameFields m o)).count t = 1 := by
  have hg : mapGet (renameFields m o) t = some v₂ := by
    rw [hm]
    exact mapGet_rename_last o _ l₃ n₂ t v₂ (outputName_of_some o n₂ t h₂) hlast
  exact ⟨outputName_of_some o n₁ t h₁, hg,
    count_mapKeys_of_mapGet _ t v₂ (wellFormed_renameFields m o) hg⟩

/-- Instance of the amended C14: `wind_gust`, visited after `wind_speed`, wins under `wind`. -/
theorem renameFields_collision_witness :
    outputName [("wind_speed", "wind"), ("wind_gust", "wind")] "wind_speed" = "wind" ∧
    mapGet (renameFields [("humidity_out", Value.float 55), ("wind_speed", Value.float 1),
        ("wind_gust", Value.float 2), ("uv", Value.int 3)]
        [("wind_speed", "wind"), ("wind_gust", "wind")]) "wind" = some (Value.float 2) ∧
    (mapKeys (renameFields [("humidity_out", Value.float 55), ("wind_speed", Value.float 1),
        ("wind_gust", Value.float 2), ("uv", Value.int 3)]
        [("wind_speed", "wind"), ("wind_gust", "wind")])).count "wind" = 1 :=
  renameFields_collision _ [("wind_speed", "wind"), ("wind_gust", "wind")]
    [("humidity_out", Value.float 55)] [] [("uv", Value.int 3)] "wind_speed" "wind_gust" "wind"
    (Value.float 1) (Value.float 2) (by rfl) (by rfl) (by rfl) (by decide)

/-- The loop adds fewer entries than `m` has when an output key is already taken or two
entries of `m` are sent to the same output key. -/
theorem length_rename_lt (names : List (String × String)) (m acc : Fields)
    (h : (∃ e ∈ m, outputName names e.1 ∈ mapKeys acc) ∨
      ¬ ((mapKeys m).map (outputName names)).Nodup) :
    (m.foldl (renameEntry names) acc).length < acc.length + m.length := by
  induction m generalizing acc with
  | nil =>
    rcases h with ⟨e, he, _⟩ | h
    · simp at he
    · simp [mapKeys] at h
  | cons e rest ih =>
    rw [List.foldl_cons, List.length_cons]
    by_cases ht : outputName names e.1 ∈ mapKeys acc
    · have h1 := length_rename_le names rest (renameEntry names acc e)
      rw [renameEntry_eq, length_mapSet, if_pos ht] at h1
      rw [renameEntry_eq]
      omega
    · have hbad : (∃ e' ∈ rest, outputName names e'.1 ∈ mapKeys (renameEntry names acc e)) ∨
          ¬ ((mapKeys rest).map (outputName names)).Nodup := by
        rcases h with ⟨e', he', hmem⟩ | h
        · rcases List.mem_cons.mp he' with rfl | he''
          · exact absurd hmem ht
          · left
            refine ⟨e', he'', ?_⟩
            rw [renameEntry_eq, mem_mapKeys_mapSet]
            exact Or.inr hmem
        · simp only [mapKeys, List.map_cons, List.nodup_cons, not_and_or, not_not] at h
          rcases h with h | h
          · left
            simp only [List.mem_map] at h
            obtain ⟨k, ⟨e', he', rfl⟩, hk⟩ := h
            refine ⟨e', he', ?_⟩
            rw [renameEntry_eq, mem_mapKeys_mapSet]
            exact Or.inl hk
          · right
            simpa [mapKeys] using h
      have h1 := ih (renameEntry names acc e) hbad
      have h2 : (renameEntry names acc e).length = acc.length + 1 := by
        rw [renameEntry_eq, length_mapSet, if_neg ht]
      omega

/-- C16: an override target equal to the name of another, non-overridden field makes two
entries collide, so the output can have strictly fewer entries than the input although the
targets of the override table are pairwise distinct: with `temperature_out` overridden to
`humidity_out`, the fields `temperature_out` and `humidity_out` leave a single entry.  In
general the output never has more entries than the input, and exactly as many if and only
if the renaming is injective on the keys of the input. -/
theorem renameFields_fewer_entries :
    (([("temperature_out", "humidity_out")].map Prod.snd).Nodup ∧
      (renameFields [("temperature_out", Value.float 1), ("humidity_out", Value.float 2)]
        [("temperature_out", "humidity_out")]).length = 1 ∧
      (renameFields [("humidity_out", Value.float 2), ("temperature_out", Value.float 1)]
        [("temperature_out", "humidity_out")]).length = 1) ∧
    ∀ (m : Fields) (o : List (String × String)), WellFormed m →
      (renameFields m o).length ≤ m.length ∧
      ((renameFields m o).length = m.length ↔
        ∀ a ∈ mapKeys m, ∀ b ∈ mapKeys m, outputName o a = outputName o b → a = b) := by
  refine ⟨⟨by decide, by rfl, by rfl⟩, ?_⟩
  intro m o hwf
  have hle : (renameFields m o).length ≤ m.length := by
    have := length_rename_le o m []
    simpa [renameFields] using this
  refine ⟨hle, ?_⟩
  have hiff : ((mapKeys m).map (outputName o)).Nodup ↔
      ∀ a ∈ mapKeys m, ∀ b ∈ mapKeys m, outputName o a = outputName o b → a = b := by
    constructor
    · intro hnd a ha b hb hab
      exact List.inj_on_of_nodup_map hnd ha hb hab
    · intro hinj
      exact List.Nodup.map_on hinj hwf
  rw [← hiff]
  constructor
  · intro heq
    by_contra hnd
    have := length_rename_lt o m [] (Or.inr hnd)
    simp only [List.length_nil, Nat.zero_add] at this
    unfold renameFields at heq
    omega
  · intro hnd
    have := length_rename_eq o m [] hnd (by simp [mapKeys])
    simpa [renameFields] using this

/-- Instance of C16 at the colliding override and at an injective one. -/
theorem renameFields_fewer_entries_witness :
    WellFormed [("temperature_out", Value.float 1), ("humidity_out", Value.float 2)] ∧
    (renameFields [("temperature_out", Value.float 1), ("humidity_out", Value.float 2)]
        [("temperature_out", "humidity_out")]).length
      ≤ [("temperature_out", Value.float 1), ("humidity_out", Value.float 2)].length ∧
    ¬ (∀ a ∈ mapKeys [("temperature_out", Value.float 1), ("humidity_out", Value.float 2)],
      ∀ b ∈ mapKeys [("temperature_out", Value.float 1), ("humidity_out", Value.float 2)],
        outputName [("temperature_out", "humidity_out")] a
          = outputName [("temperature_out", "humidity_out")] b → a = b) := by
  have h := renameFields_fewer_entries.2
    [("temperature_out", Value.float 1), ("humidity_out", Value.float 2)]
    [("temperature_out", "humidity_out")] (by decide)
  refine ⟨by decide, h.1, ?_⟩
  intro hinj
  have hlen := h.2.mpr hinj
  have h1 := renameFields_fewer_entries.1.2.1
  rw [h1] at hlen
  exact absurd hlen (by decide)

/-! ## Values stored for strings that are no numbers -/

theorem mathRound_zero : mathRound 0 = 0 := by
  have := mathRound_of_near 0 0 (by norm_num) (by norm_num)
  simpa using this

theorem parseFloat_invalid (s : String) (h : (parseFloat s).2 = some NumError.invalid) :
    (parseFloat s).1 = 0 := by
  unfold parseFloat at h ⊢
  cases hr : readDecimal s.toList with
  | none => rfl
  | some x =>
    rw [hr] at h
    exact Option.noConfusion h

theorem parseInt_invalid (s : String) (h : (parseInt s).2 = some NumError.invalid) :
    (parseInt s).1 = 0 := by
  unfold parseInt at h ⊢
  cases hl : s.toList with
  | nil => rfl
  | cons c cs =>
    rw [hl] at h
    cases hrs : readSign (c :: cs) with
    | mk neg ds =>
      simp only [hrs] at h ⊢
      cases ds with
      | nil => rfl
      | cons d ds =>
        simp only at h ⊢
        cases hp : parseUintLoop (d :: ds) 0 with
        | mk un err =>
          simp only [hp] at h ⊢
          rcases err with _ | e
          · simp only at h
            split_ifs at h <;> simp at h
          · cases e
            · rfl
            · simp only at h
              split_ifs at h <;> simp at h

theorem round1_zero_fahrenheit : round1 ((0 - 32) * 5 / 9) = -17.8 := by
  rw [round1_of_near _ (-178)] <;> norm_num

/-- A converter that reports `ErrSyntax` returns the conversion of the number zero. -/
theorem apply_of_invalid (conv : Converter) (v : String)
    (h : (conv.apply v).2 = some NumError.invalid) : (conv.apply v).1 = conv.zeroValue := by
  have hr : mathRound (fahrenheitToCelsius 0 * 10) = ((-178 : ℤ) : ℚ) := by
    apply mathRound_of_near <;> norm_num [fahrenheitToCelsius]
  cases conv with
  | int =>
    simp only [Converter.apply, convertInt, Prod.map, id] at h ⊢
    rw [parseInt_invalid v h]
    rfl
  | barometer =>
    simp only [Converter.apply, convertBarometer, Prod.map, id] at h ⊢
    rw [parseFloat_invalid v h]
    simp [Converter.zeroValue, mathRound_zero]
  | windSpeed =>
    simp only [Converter.apply, convertWindSpeed, Prod.map, id] at h ⊢
    rw [parseFloat_invalid v h]
    simp [Converter.zeroValue, milesPerHourToKilometersPerHour, mathRound_zero]
  | float =>
    simp only [Converter.apply, convertFloat, Prod.map, id] at h ⊢
    rw [parseFloat_invalid v h]
    rfl
  | rain =>
    simp only [Converter.apply, convertRain, Prod.map, id] at h ⊢
    rw [parseFloat_invalid v h]
    simp [Converter.zeroValue, inchToMillimeters, mathRound_zero]
  | temperature =>
    simp only [Converter.apply, convertTemperature, Prod.map, id] at h ⊢
    rw [parseFloat_invalid v h, hr]
    simp only [Converter.zeroValue]
    norm_num

/-- C15: when a recognized vendor key of a reading carries a syntactically invalid numeric
string, the field map of `convertData` holds, under the key's canonical name, the converter
applied to the parser's zero result: 0 for the wind-speed, barometer, rain, float and
integer fields, and -17.8, which is `round1((0 - 32) * 5/9)`, for the temperature fields. -/
theorem convertData_invalid_gives_zero (raw : List (String × String)) (k v c : String)
    (conv : Converter) (hwf : WellFormed raw) (hmem : (k, v) ∈ raw)
    (hd : dispatch k = some (c, conv))
    (hinv : (conv.apply v).2 = some NumError.invalid) :
    mapGet (convertData raw).2 c = some conv.zeroValue ∧
    Converter.temperature.zeroValue = Value.float (round1 ((0 - 32) * 5 / 9)) := by
  constructor
  · rw [← apply_of_invalid conv v hinv]
    exact mapGet_foldl_written raw [] k v c conv hwf hmem hd
  · rw [round1_zero_fahrenheit]
    rfl

/-- Instance of C15: the reading `{"tempf": "not_a_number"}` has `temperature_out = -17.8`. -/
theorem convertData_invalid_gives_zero_witness :
    WellFormed [("tempf", "not_a_number")] ∧
    (Converter.temperature.apply "not_a_number").2 = some NumError.invalid ∧
    mapGet (convertData [("tempf", "not_a_number")]).2 "temperature_out"
      = some (Value.float (-17.8)) :=
  ⟨by decide, by rfl,
    (convertData_invalid_gives_zero [("tempf", "not_a_number")] "tempf" "not_a_number"
      "temperature_out" Converter.temperature (by decide) (by simp) (by rfl) (by rfl)).1⟩

/-! ## The pass-through converters -/

theorem parseUintLoop_outOfRange (cs : List Char) (n : Nat)
    (h : (parseUintLoop cs n).2 = some NumError.outOfRange) :
    (parseUintLoop cs n).1 = maxUint64 := by
  induction cs generalizing n with
  | nil => simp [parseUintLoop] at h
  | cons c cs ih =>
    unfold parseUintLoop at h ⊢
    dsimp only at h ⊢
    split_ifs at h ⊢ with h1 h2 h3
    · simp at h
    · rfl
    · rfl
    · exact ih _ h

theorem parseUintLoop_nondigit (cs : List Char) (n : Nat)
    (h : ∃ c ∈ cs, isDigit c = false) : (parseUintLoop cs n).2 ≠ none := by
  induction cs generalizing n with
  | nil =>
    obtain ⟨c, hc, _⟩ := h
    simp at hc
  | cons c cs ih =>
    unfold parseUintLoop
    dsimp only
    split_ifs with h1 h2 h3
    · simp
    · simp
    · simp
    · apply ih
      obtain ⟨c', hc', hd⟩ := h
      rcases List.mem_cons.mp hc' with rfl | hc''
      · simp [hd] at h1
      · exact ⟨c', hc'', hd⟩

theorem readSign_mem_point (l : List Char) (h : '.' ∈ l) : '.' ∈ (readSign l).2 := by
  unfold readSign
  split
  · simpa using h
  · simpa using h
  · exact h

/-- A string with a decimal point is a parse failure for `strconv.ParseInt`. -/
theorem parseInt_point (s : String) (h : '.' ∈ s.toList) : (parseInt s).2 ≠ none := by
  unfold parseInt
  cases hl : s.toList with
  | nil => simp
  | cons c cs =>
    rw [hl] at h
    have hm := readSign_mem_point (c :: cs) h
    cases hrs : readSign (c :: cs) with
    | mk neg ds =>
      rw [hrs] at hm
      simp only at hm
      simp only [hrs]
      cases ds with
      | nil => simp at hm
      | cons d ds =>
        have hnd := parseUintLoop_nondigit (d :: ds) 0 ⟨'.', hm, by rfl⟩
        have hor := parseUintLoop_outOfRange (d :: ds) 0
        cases hp : parseUintLoop (d :: ds) 0 with
        | mk un err =>
          rw [hp] at hnd hor
          simp only at hnd hor
          simp only [hp]
          rcases err with _ | e
          · exact absurd rfl hnd
          · cases e
            · simp
            · have hun : un = maxUint64 := hor rfl
              subst hun
              cases neg <;> simp [maxUint64]

/-- C13: the pass-through converters apply no conversion and no rounding.  For a string that
parses as a float, `convertFloat` returns exactly the parsed value; it is the converter of
the wind direction, solar radiation, humidity, soil moisture and battery keys.  For a
string that parses as an integer, `convertInt` returns exactly that integer; it is the
converter of `uv` alone.  A literal with a decimal point, such as `3.5`, is a parse failure
for `convertInt`. -/
theorem passthrough_converters :
    (∀ s x, parseFloat s = (x, none) → convertFloat s = (x, none)) ∧
    (∀ s n, parseInt s = (n, none) → convertInt s = (n, none)) ∧
    convertInt "3.5" = (0, some NumError.invalid) ∧
    (∀ s, '.' ∈ s.toList → (convertInt s).2 ≠ none) ∧
    (dispatchTable.filter (fun e => decide (e.2.2 = Converter.float))).map (fun e => e.1)
      = ["winddir", "solarradiation", "humidity", "humidityin", "humidity1", "humidity2",
        "humidity3", "humidity4", "humidity5", "humidity6", "humidity7", "humidity8",
        "soilmoisture1", "soilmoisture2", "soilmoisture3", "soilmoisture4", "soilmoisture5",
        "soilmoisture6", "soilmoisture7", "soilmoisture8", "wh65batt", "batt1", "batt2",
        "soilbatt1", "soilbatt2"] ∧
    (dispatchTable.filter (fun e => decide (e.2.2 = Converter.int))).map (fun e => e.1)
      = ["uv"] := by
  refine ⟨?_, ?_, by rfl, ?_, by rfl, by rfl⟩
  · intro s x h
    simp [convertFloat, h]
  · intro s n h
    simp [convertInt, h]
  · intro s h
    have := parseInt_point s h
    simpa [convertInt] using this

/-- Instances of C13: `270.5` passes through `convertFloat`, `7` and `-12` pass through
`convertInt`, and `3.5` fails in `convertInt`. -/
theorem passthrough_converters_witness :
    convertFloat "270.5" = (270.5, none) ∧ convertInt "7" = (7, none) ∧
    convertInt "-12" = (-12, none) ∧ (convertInt "3.5").2 ≠ none := by
  have hp : parseFloat "270.5" = (270.5, none) := by
    have h : parseFloat "270.5" = (scale10 2705 (-1), none) := by rfl
    rw [h]; norm_num [scale10]
  exact ⟨passthrough_converters.1 "270.5" 270.5 hp,
    passthrough_converters.2.1 "7" 7 (by rfl),
    passthrough_converters.2.1 "-12" (-12) (by rfl),
    passthrough_converters.2.2.2.1 "3.5" (by decide)⟩

/-! ## Monotonicity -/

namespace Binary64

theorem scale_eq (b m : Nat) (e : Int) (hb : b ≠ 0) :
    scale b m e = (m : ℚ) * (b : ℚ) ^ e := by
  have hb' : (b : ℚ) ≠ 0 := by exact_mod_cast hb
  unfold scale
  split_ifs with h
  · obtain ⟨n, rfl⟩ := Int.eq_ofNat_of_zero_le h
    simp [zpow_natCast]
  · obtain ⟨n, hn⟩ : ∃ n : ℕ, e = -(n : ℤ) := ⟨(-e).toNat, by omega⟩
    subst hn
    simp [zpow_neg, zpow_natCast, div_eq_mul_inv]

theorem ulp_eq (y : ℚ) : ulp y = (2 : ℚ) ^ (exponentOf y - 52) := by
  unfold ulp
  rw [scale_eq 2 1 _ (by norm_num)]
  simp

theorem ulp_pos (y : ℚ) : 0 < ulp y := by
  rw [ulp_eq]
  positivity

theorem abs_roundTiesEven_sub_le (z : ℚ) : |(roundTiesEven z : ℚ) - z| ≤ 1 / 2 := by
  have h1 : (⌊z⌋ : ℚ) ≤ z := Int.floor_le z
  have h2 : z < ⌊z⌋ + 1 := Int.lt_floor_add_one z
  unfold roundTiesEven
  split_ifs with a b c
  · rw [abs_le]; constructor <;> linarith
  · rw [abs_le]; push_cast; constructor <;> linarith
  · rw [abs_le]; constructor <;> linarith
  · rw [abs_le]; push_cast; constructor <;> linarith

theorem roundTiesEven_eq (z : ℚ) (m : ℤ) (h : |z - m| < 1 / 2) : roundTiesEven z = m := by
  rw [abs_lt] at h
  obtain ⟨h1, h2⟩ := h
  unfold roundTiesEven
  by_cases hz : (m : ℚ) ≤ z
  · have hf : ⌊z⌋ = m := by
      rw [Int.floor_eq_iff]; constructor <;> linarith
    rw [hf, if_pos (by linarith)]
  · push_neg at hz
    have hf : ⌊z⌋ = m - 1 := by
      rw [Int.floor_eq_iff]; push_cast; constructor <;> linarith
    rw [hf]
    push_cast
    rw [if_neg (by linarith), if_pos (by linarith)]
    ring

theorem two_zpow_exponentOf_le (y : ℚ) (hy : y ≠ 0) :
    (2 : ℚ) ^ exponentOf y ≤ max |y| ((2 : ℚ) ^ (-1022 : ℤ)) := by
  unfold exponentOf
  have hpos : 0 < |y| := abs_pos.mpr hy
  rcases le_total (Int.log 2 |y|) (-1022) with h | h
  · rw [max_eq_right h]
    exact le_max_right _ _
  · rw [max_eq_left h]
    have := Int.zpow_log_le_self (b := 2) (by norm_num) hpos
    exact le_trans (by exact_mod_cast this) (le_max_left _ _)

theorem roundNearest_zero : roundNearest 0 = F64.finite 0 := by
  have h : roundTiesEven 0 = 0 := roundTiesEven_eq 0 0 (by norm_num)
  unfold roundNearest
  simp only [zero_div, h, Int.cast_zero, zero_mul, abs_zero]
  rw [if_neg]
  push_neg
  positivity

/-- The rounding error of a number of magnitude at most `B` is at most `B / 2 ^ 53`, and the
result is finite, for `B` between `2 ^ -1022` and `2 ^ 1000`. -/
theorem roundNearest_close (y B : ℚ) (hB₁ : (2 : ℚ) ^ (-1022 : ℤ) ≤ B) (hy : |y| ≤ B)
    (hB₂ : B ≤ (2 : ℚ) ^ (1000 : ℤ)) :
    ∃ r, roundNearest y = F64.finite r ∧ |r - y| ≤ B / 2 ^ 53 := by
  by_cases h0 : y = 0
  · subst h0
    refine ⟨0, roundNearest_zero, ?_⟩
    have : (0 : ℚ) ≤ B := le_trans (by positivity) hB₁
    simp only [sub_zero, abs_zero]
    positivity
  · have hp := ulp_pos y
    have hk := abs_roundTiesEven_sub_le (y / ulp y)
    have he := two_zpow_exponentOf_le y h0
    have hmax : max |y| ((2 : ℚ) ^ (-1022 : ℤ)) ≤ B := max_le hy hB₁
    have hu : ulp y = (2 : ℚ) ^ exponentOf y / 2 ^ 52 := by
      rw [ulp_eq, zpow_sub₀ (by norm_num : (2 : ℚ) ≠ 0)]
      norm_num
    have herr : |(roundTiesEven (y / ulp y) : ℚ) * ulp y - y| ≤ B / 2 ^ 53 := by
      have e1 : (roundTiesEven (y / ulp y) : ℚ) * ulp y - y
          = ((roundTiesEven (y / ulp y) : ℚ) - y / ulp y) * ulp y := by
        field_simp
      rw [e1, abs_mul, abs_of_pos hp]
      calc |(roundTiesEven (y / ulp y) : ℚ) - y / ulp y| * ulp y
          ≤ 1 / 2 * ulp y := by
            apply mul_le_mul_of_nonneg_right hk hp.le
        _ = (2 : ℚ) ^ exponentOf y / 2 ^ 53 := by rw [hu]; ring
        _ ≤ B / 2 ^ 53 := by
            apply div_le_div_of_nonneg_right (le_trans he hmax)
            positivity
    refine ⟨(roundTiesEven (y / ulp y) : ℚ) * ulp y, ?_, herr⟩
    unfold roundNearest
    simp only
    rw [if_neg]
    push_neg
    have hr : |(roundTiesEven (y / ulp y) : ℚ) * ulp y| ≤ |y| + B / 2 ^ 53 := by
      have := abs_sub_abs_le_abs_sub ((roundTiesEven (y / ulp y) : ℚ) * ulp y) y
      linarith
    have hB0 : (0 : ℚ) ≤ B := le_trans (by positivity) hB₁
    have h1 : B / 2 ^ 53 ≤ B := by
      apply div_le_self hB0
      norm_num
    have h2 : (2 : ℚ) ^ (1000 : ℤ) + (2 : ℚ) ^ (1000 : ℤ) < ((2 ^ 1024 : ℕ) : ℚ) := by
      norm_num
    linarith

/-- The value of the rounding at a number strictly within half a grid step of the grid
point `m * 2 ^ (e - 52)` of its binade. -/
theorem roundNearest_eq (y : ℚ) (e m : ℤ) (he₁ : -1022 ≤ e) (he₂ : e ≤ 1000)
    (hlo : (2 : ℚ) ^ e ≤ |y|) (hhi : |y| < (2 : ℚ) ^ (e + 1))
    (hclose : |y / (2 : ℚ) ^ (e - 52) - m| < 1 / 2) :
    roundNearest y = F64.finite ((m : ℚ) * (2 : ℚ) ^ (e - 52)) := by
  have hpos : 0 < |y| := lt_of_lt_of_le (by positivity) hlo
  have hlog : Int.log 2 |y| = e := by
    have h1 : e ≤ Int.log 2 |y| :=
      (Int.zpow_le_iff_le_log (b := 2) (by norm_num) hpos).mp (by exact_mod_cast hlo)
    have h2 : Int.log 2 |y| < e + 1 :=
      (Int.lt_zpow_iff_log_lt (b := 2) (by norm_num) hpos).mp (by exact_mod_cast hhi)
    omega
  have hexp : exponentOf y = e := by
    unfold exponentOf
    rw [hlog]
    exact max_eq_left he₁
  have hu : ulp y = (2 : ℚ) ^ (e - 52) := by rw [ulp_eq, hexp]
  have hk : roundTiesEven (y / ulp y) = m := by
    rw [hu]
    exact roundTiesEven_eq _ m hclose
  unfold roundNearest
  simp only
  rw [hk, hu, if_neg]
  push_neg
  -- the magnitude of the result is below `2 ^ (e + 2)`
  have hp : (0 : ℚ) < (2 : ℚ) ^ (e - 52) := by positivity
  have hm : |(m : ℚ)| < 2 ^ 54 := by
    have hz : |y / (2 : ℚ) ^ (e - 52)| < 2 ^ 53 := by
      rw [abs_div, abs_of_pos hp, div_lt_iff₀ hp]
      calc |y| < (2 : ℚ) ^ (e + 1) := hhi
        _ = 2 ^ 53 * (2 : ℚ) ^ (e - 52) := by
          rw [show e + 1 = 53 + (e - 52) by ring, zpow_add₀ (by norm_num : (2 : ℚ) ≠ 0)]
          norm_num
    have := abs_sub_abs_le_abs_sub (m : ℚ) (y / (2 : ℚ) ^ (e - 52))
    rw [abs_sub_comm] at this
    linarith
  rw [abs_mul, abs_of_pos hp]
  calc |(m : ℚ)| * (2 : ℚ) ^ (e - 52) < 2 ^ 54 * (2 : ℚ) ^ (e - 52) := by
        apply mul_lt_mul_of_pos_right hm hp
    _ = (2 : ℚ) ^ (e + 2) := by
        rw [show e + 2 = 54 + (e - 52) by ring, zpow_add₀ (by norm_num : (2 : ℚ) ≠ 0)]
        norm_num
    _ ≤ (2 : ℚ) ^ (1002 : ℤ) := by
        apply zpow_le_zpow_right₀ (by norm_num)
        omega
    _ ≤ ((2 ^ 1024 : ℕ) : ℚ) := by norm_num

end Binary64

/-! ## Error analysis of the rounding converters in binary64 -/

namespace Binary64

theorem mul_finite_close (a b B : ℚ) (hB₁ : (2 : ℚ) ^ (-1022 : ℤ) ≤ B) (h : |a * b| ≤ B)
    (hB₂ : B ≤ (2 : ℚ) ^ (1000 : ℤ)) :
    ∃ r, (F64.finite a).mul (F64.finite b) = F64.finite r ∧ |r - a * b| ≤ B / 2 ^ 53 :=
  roundNearest_close (a * b) B hB₁ h hB₂

theorem sub_finite_close (a b B : ℚ) (hB₁ : (2 : ℚ) ^ (-1022 : ℤ) ≤ B) (h : |a - b| ≤ B)
    (hB₂ : B ≤ (2 : ℚ) ^ (1000 : ℤ)) :
    ∃ r, (F64.finite a).sub (F64.finite b) = F64.finite r ∧ |r - (a - b)| ≤ B / 2 ^ 53 :=
  roundNearest_close (a - b) B hB₁ h hB₂

theorem div_finite_close (a b B : ℚ) (hb : b ≠ 0) (hB₁ : (2 : ℚ) ^ (-1022 : ℤ) ≤ B)
    (h : |a / b| ≤ B) (hB₂ : B ≤ (2 : ℚ) ^ (1000 : ℤ)) :
    ∃ r, (F64.finite a).div (F64.finite b) = F64.finite r ∧ |r - a / b| ≤ B / 2 ^ 53 := by
  obtain ⟨r, hr, he⟩ := roundNearest_close (a / b) B hB₁ h hB₂
  refine ⟨r, ?_, he⟩
  show (if b = 0 then (if a = 0 then F64.nan else F64.inf (decide (a < 0)))
    else roundNearest (a / b)) = F64.finite r
  rw [if_neg hb, hr]

theorem div_finite_eq (a b : ℚ) (hb : b ≠ 0) :
    (F64.finite a).div (F64.finite b) = roundNearest (a / b) := by
  show (if b = 0 then (if a = 0 then F64.nan else F64.inf (decide (a < 0)))
    else roundNearest (a / b)) = _
  rw [if_neg hb]

/-- The step `math.Round(x*10) / 10` on a finite number of magnitude at most `4 * 10 ^ 7`:
the result is finite and within `0.05 + 10 ^ -7` of the number. -/
theorem roundTenth_close (v : ℚ) (hv : |v| ≤ 4 * 10 ^ 7) :
    ∃ res, ((F64.finite v).mul (F64.finite 10)).round.div (F64.finite 10) = F64.finite res ∧
      |res - v| ≤ 1 / 20 + 1 / 10 ^ 7 := by
  obtain ⟨w, hw, hwe⟩ := mul_finite_close v 10 (4 * 10 ^ 8) (by norm_num)
    (by rw [abs_mul]; norm_num; linarith) (by norm_num)
  have hn := abs_mathRound_sub_le w
  have hwabs : |w| ≤ 4 * 10 ^ 8 + 1 := by
    have h1 := abs_sub_abs_le_abs_sub w (v * 10)
    have h2 : |v * 10| ≤ 4 * 10 ^ 8 := by rw [abs_mul]; norm_num; linarith
    have h3 : (4 * 10 ^ 8 : ℚ) / 2 ^ 53 ≤ 1 := by norm_num
    linarith
  have hnabs : |mathRound w| ≤ 4 * 10 ^ 8 + 2 := by
    have h1 := abs_sub_abs_le_abs_sub (mathRound w) w
    linarith
  obtain ⟨res, hres, hrese⟩ := div_finite_close (mathRound w) 10 (5 * 10 ^ 7) (by norm_num)
    (by norm_num)
    (by rw [abs_div]; norm_num; linarith) (by norm_num)
  refine ⟨res, ?_, ?_⟩
  · rw [hw]
    exact hres
  · rw [abs_le] at hwe hn hrese ⊢
    norm_num at hwe hrese ⊢
    constructor <;> linarith

/-- The step `math.Round(x*10) / 10` away from a tie: when `10 * v` is within
`1/2 - 10 ^ -7` of the integer `m`, the result is the `float64` nearest to `m / 10`. -/
theorem roundTenth_exact (v : ℚ) (m : ℤ) (hv : |v| ≤ 4 * 10 ^ 7)
    (hm : |v * 10 - m| ≤ 1 / 2 - 1 / 10 ^ 7) :
    ((F64.finite v).mul (F64.finite 10)).round.div (F64.finite 10)
      = roundNearest ((m : ℚ) / 10) := by
  obtain ⟨w, hw, hwe⟩ := mul_finite_close v 10 (4 * 10 ^ 8) (by norm_num)
    (by rw [abs_mul]; norm_num; linarith) (by norm_num)
  have hr : mathRound w = m := by
    rw [abs_le] at hwe hm
    norm_num at hwe
    apply mathRound_of_near <;> linarith
  rw [hw]
  show (F64.finite (mathRound w)).div (F64.finite 10) = _
  rw [hr, div_finite_eq _ _ (by norm_num)]

/-- The `float64` constant of a decimal literal of moderate size is within the relative
error `2 ^ -53` of the literal. -/
theorem constant_close (c₀ : ℚ) (h₁ : (2 : ℚ) ^ (-1022 : ℤ) ≤ c₀) (h₂ : c₀ ≤ 2 ^ (1000 : ℤ)) :
    ∃ c, roundNearest c₀ = F64.finite c ∧ |c - c₀| ≤ c₀ / 2 ^ 53 := by
  have h0 : (0 : ℚ) ≤ c₀ := le_trans (by positivity) h₁
  exact roundNearest_close c₀ c₀ h₁ (by rw [abs_of_nonneg h0]) h₂

/-- The wind-speed conversion in `float64` is within `10 ^ -8` of `a * 1.609344`. -/
theorem windSpeed_head (a : ℚ) (ha : |a| ≤ 10 ^ 6) :
    ∃ v, milesPerHourToKilometersPerHour (F64.finite a) = F64.finite v ∧
      |v - a * 1.609344| ≤ 1 / 10 ^ 8 ∧ |v| ≤ 4 * 10 ^ 7 := by
  obtain ⟨c, hc, hce⟩ := constant_close 1.609344 (by norm_num) (by norm_num)
  have hcabs : |c| ≤ 2 := by
    have h1 := abs_sub_abs_le_abs_sub c 1.609344
    norm_num at hce h1 ⊢
    rw [abs_le] at hce ⊢
    constructor <;> linarith
  have hprod : |a * c| ≤ 2 * 10 ^ 6 := by
    rw [abs_mul]
    calc |a| * |c| ≤ 10 ^ 6 * 2 := mul_le_mul ha hcabs (abs_nonneg _) (by norm_num)
      _ = 2 * 10 ^ 6 := by norm_num
  obtain ⟨v, hv, hve⟩ := mul_finite_close a c (2 * 10 ^ 6) (by norm_num) hprod (by norm_num)
  have hpert : |a * c - a * 1.609344| ≤ 10 ^ 6 * (1.609344 / 2 ^ 53) := by
    rw [← mul_sub, abs_mul]
    exact mul_le_mul ha hce (abs_nonneg _) (by norm_num)
  refine ⟨v, ?_, ?_, ?_⟩
  · unfold milesPerHourToKilometersPerHour
    rw [hc]
    exact hv
  · have := abs_sub_le v (a * c) (a * 1.609344)
    norm_num at hve hpert ⊢
    linarith
  · have h1 := abs_sub_abs_le_abs_sub v (a * c)
    norm_num at hve
    linarith

/-- The rain conversion in `float64` is within `10 ^ -8` of `a * 25.4`. -/
theorem rain_head (a : ℚ) (ha : |a| ≤ 10 ^ 6) :
    ∃ v, inchToMillimeters (F64.finite a) = F64.finite v ∧
      |v - a * 25.4| ≤ 1 / 10 ^ 8 ∧ |v| ≤ 4 * 10 ^ 7 := by
  obtain ⟨c, hc, hce⟩ := constant_close 25.4 (by norm_num) (by norm_num)
  have hcabs : |c| ≤ 26 := by
    norm_num at hce ⊢
    rw [abs_le] at hce ⊢
    constructor <;> linarith
  have hprod : |a * c| ≤ 26 * 10 ^ 6 := by
    rw [abs_mul]
    calc |a| * |c| ≤ 10 ^ 6 * 26 := mul_le_mul ha hcabs (abs_nonneg _) (by norm_num)
      _ = 26 * 10 ^ 6 := by norm_num
  obtain ⟨v, hv, hve⟩ := mul_finite_close a c (26 * 10 ^ 6) (by norm_num) hprod (by norm_num)
  have hpert : |a * c - a * 25.4| ≤ 10 ^ 6 * (25.4 / 2 ^ 53) := by
    rw [← mul_sub, abs_mul]
    exact mul_le_mul ha hce (abs_nonneg _) (by norm_num)
  refine ⟨v, ?_, ?_, ?_⟩
  · unfold inchToMillimeters
    rw [hc]
    exact hv
  · have := abs_sub_le v (a * c) (a * 25.4)
    norm_num at hve hpert ⊢
    linarith
  · have h1 := abs_sub_abs_le_abs_sub v (a * c)
    norm_num at hve
    linarith

/-- The temperature conversion in `float64` is within `10 ^ -8` of `(a - 32) * 5 / 9`. -/
theorem temperature_head (a : ℚ) (ha : |a| ≤ 10 ^ 6) :
    ∃ v, fahrenheitToCelsius (F64.finite a) = F64.finite v ∧
      |v - (a - 32) * 5 / 9| ≤ 1 / 10 ^ 8 ∧ |v| ≤ 4 * 10 ^ 7 := by
  have ha' := abs_le.mp ha
  obtain ⟨t₁, h₁, e₁⟩ := sub_finite_close a 32 (2 * 10 ^ 6) (by norm_num)
    (by rw [abs_le]; constructor <;> linarith) (by norm_num)
  have b₁ := abs_le.mp e₁
  norm_num at b₁
  obtain ⟨t₂, h₂, e₂⟩ := mul_finite_close t₁ 5 (2 * 10 ^ 7) (by norm_num)
    (by rw [abs_le]; constructor <;> linarith) (by norm_num)
  have b₂ := abs_le.mp e₂
  norm_num at b₂
  obtain ⟨t₃, h₃, e₃⟩ := div_finite_close t₂ 9 (2 * 10 ^ 7) (by norm_num) (by norm_num)
    (by rw [abs_le]; constructor <;> linarith) (by norm_num)
  have b₃ := abs_le.mp e₃
  norm_num at b₃
  refine ⟨t₃, ?_, ?_, ?_⟩
  · unfold fahrenheitToCelsius
    rw [h₁, h₂, h₃]
  · rw [abs_le]
    constructor <;> linarith
  · rw [abs_le]
    constructor <;> linarith

/-- The barometer conversion in `float64` is within `10 ^ -8` of `a / 0.029530`. -/
theorem barometer_head (a : ℚ) (ha : |a| ≤ 10 ^ 6) :
    ∃ v, (F64.finite a).div (roundNearest 0.029530) = F64.finite v ∧
      |v - a / 0.029530| ≤ 1 / 10 ^ 8 ∧ |v| ≤ 4 * 10 ^ 7 := by
  obtain ⟨c, hc, hce⟩ := constant_close 0.029530 (by norm_num) (by norm_num)
  have hcb := abs_le.mp hce
  norm_num at hcb
  have hcpos : (0 : ℚ) < c := by linarith
  have hclow : (295 : ℚ) / 10000 ≤ c := by linarith
  have hq : |a / c| ≤ 34 * 10 ^ 6 := by
    rw [abs_div, abs_of_pos hcpos, div_le_iff₀ hcpos]
    calc |a| ≤ 10 ^ 6 := ha
      _ ≤ 34 * 10 ^ 6 * (295 / 10000) := by norm_num
      _ ≤ 34 * 10 ^ 6 * c := by
        apply mul_le_mul_of_nonneg_left hclow
        norm_num
  obtain ⟨v, hv, hve⟩ := div_finite_close a c (34 * 10 ^ 6) hcpos.ne' (by norm_num) hq
    (by norm_num)
  have hsplit : a / c - a / 0.029530 = a / c * ((0.029530 - c) / 0.029530) := by
    field_simp
    ring
  have hrel : |(0.029530 - c) / 0.029530| ≤ 1 / 2 ^ 53 := by
    rw [abs_div, abs_sub_comm, div_le_iff₀ (by norm_num)]
    calc |c - 0.029530| ≤ 0.029530 / 2 ^ 53 := hce
      _ = 1 / 2 ^ 53 * |(0.029530 : ℚ)| := by
        rw [abs_of_pos (by norm_num)]
        ring
  have hpert : |a / c - a / 0.029530| ≤ 34 * 10 ^ 6 * (1 / 2 ^ 53) := by
    rw [hsplit, abs_mul]
    exact mul_le_mul hq hrel (abs_nonneg _) (by norm_num)
  refine ⟨v, ?_, ?_, ?_⟩
  · rw [hc]
    exact hv
  · have := abs_sub_le v (a / c) (a / 0.029530)
    norm_num at hve hpert this ⊢
    linarith
  · have h1 := abs_sub_abs_le_abs_sub v (a / c)
    norm_num at hve
    linarith

end Binary64

/-! ## The rounding converters in binary64 -/

namespace Binary64

theorem round1_of_awayFromTie (f : ℚ) (m : ℤ) (hm : |10 * f - m| ≤ 1 / 2 - 1 / 10 ^ 6) :
    round1 f = m / 10 := by
  rw [abs_le] at hm
  norm_num at hm
  apply round1_of_near <;> linarith

/-- The step `math.Round(x*10) / 10` applied to a `float64` within `10 ^ -8` of the exact
value `f`. -/
theorem roundTenth_of_head (f v : ℚ) (hvf : |v - f| ≤ 1 / 10 ^ 8) (hv : |v| ≤ 4 * 10 ^ 7) :
    (AwayFromTie f → ((F64.finite v).mul (F64.finite 10)).round.div (F64.finite 10)
      = roundNearest (round1 f)) ∧
    ∃ r, ((F64.finite v).mul (F64.finite 10)).round.div (F64.finite 10) = F64.finite r ∧
      |r - f| ≤ 1 / 20 + 1 / 10 ^ 6 := by
  have hb := abs_le.mp hvf
  norm_num at hb
  constructor
  · rintro ⟨m, hm⟩
    rw [round1_of_awayFromTie f m hm]
    apply roundTenth_exact v m hv
    have hm' := abs_le.mp hm
    norm_num at hm'
    rw [abs_le]
    norm_num
    constructor <;> linarith
  · obtain ⟨r, hr, hre⟩ := roundTenth_close v hv
    refine ⟨r, hr, ?_⟩
    have hre' := abs_le.mp hre
    norm_num at hre'
    rw [abs_le]
    norm_num
    constructor <;> linarith

theorem convertWindSpeed_of_finite (s : String) (x : ℚ)
    (h : parseFloat s = (F64.finite x, none)) (hx : |x| ≤ 10 ^ 6) :
    (AwayFromTie (x * 1.609344) →
      convertWindSpeed s = (roundNearest (round1 (x * 1.609344)), none)) ∧
    ∃ r, convertWindSpeed s = (F64.finite r, none) ∧
      |r - x * 1.609344| ≤ 1 / 20 + 1 / 10 ^ 6 := by
  obtain ⟨v, hv, hvf, hvb⟩ := windSpeed_head x hx
  obtain ⟨h1, r, hr, hre⟩ := roundTenth_of_head _ v hvf hvb
  simp only [convertWindSpeed, h, hv]
  exact ⟨fun ht => by rw [h1 ht], r, by rw [hr], hre⟩

theorem convertBarometer_of_finite (s : String) (x : ℚ)
    (h : parseFloat s = (F64.finite x, none)) (hx : |x| ≤ 10 ^ 6) :
    (AwayFromTie (x / 0.029530) →
      convertBarometer s = (roundNearest (round1 (x / 0.029530)), none)) ∧
    ∃ r, convertBarometer s = (F64.finite r, none) ∧
      |r - x / 0.029530| ≤ 1 / 20 + 1 / 10 ^ 6 := by
  obtain ⟨v, hv, hvf, hvb⟩ := barometer_head x hx
  obtain ⟨h1, r, hr, hre⟩ := roundTenth_of_head _ v hvf hvb
  simp only [convertBarometer, h, hv]
  exact ⟨fun ht => by rw [h1 ht], r, by rw [hr], hre⟩

theorem convertTemperature_of_finite (s : String) (x : ℚ)
    (h : parseFloat s = (F64.finite x, none)) (hx : |x| ≤ 10 ^ 6) :
    (AwayFromTie ((x - 32) * 5 / 9) →
      convertTemperature s = (roundNearest (round1 ((x - 32) * 5 / 9)), none)) ∧
    ∃ r, convertTemperature s = (F64.finite r, none) ∧
      |r - (x - 32) * 5 / 9| ≤ 1 / 20 + 1 / 10 ^ 6 := by
  obtain ⟨v, hv, hvf, hvb⟩ := temperature_head x hx
  obtain ⟨h1, r, hr, hre⟩ := roundTenth_of_head _ v hvf hvb
  simp only [convertTemperature, h, hv]
  exact ⟨fun ht => by rw [h1 ht], r, by rw [hr], hre⟩

theorem convertRain_of_finite (s : String) (x : ℚ)
    (h : parseFloat s = (F64.finite x, none)) (hx : |x| ≤ 10 ^ 6) :
    (AwayFromTie (x * 25.4) →
      convertRain s = (roundNearest (round1 (x * 25.4)), none)) ∧
    ∃ r, convertRain s = (F64.finite r, none) ∧
      |r - x * 25.4| ≤ 1 / 20 + 1 / 10 ^ 6 := by
  obtain ⟨v, hv, hvf, hvb⟩ := rain_head x hx
  obtain ⟨h1, r, hr, hre⟩ := roundTenth_of_head _ v hvf hvb
  simp only [convertRain, h, hv]
  exact ⟨fun ht => by rw [h1 ht], r, by rw [hr], hre⟩

end Binary64

/-! ## Evaluations in binary64 -/

namespace Binary64

/-- The rounding evaluated: `r` is the grid point `m * 2 ^ (e - 52)` nearest to `y`. -/
theorem roundNearest_eval (y r : ℚ) (e m : ℤ) (he₁ : -1022 ≤ e) (he₂ : e ≤ 1000)
    (hlo : (2 : ℚ) ^ e ≤ |y|) (hhi : |y| < (2 : ℚ) ^ (e + 1))
    (hclose : |y / (2 : ℚ) ^ (e - 52) - m| < 1 / 2) (hr : r = (m : ℚ) * (2 : ℚ) ^ (e - 52)) :
    roundNearest y = F64.finite r := by
  rw [hr]
  exact roundNearest_eq y e m he₁ he₂ hlo hhi hclose

theorem parseFloat_of_readFloat (s : String) (y r : ℚ) (hs : special s.toList = none)
    (hy : readFloat s.toList = some y) (hr : roundNearest y = F64.finite r) :
    parseFloat s = (F64.finite r, none) := by
  unfold parseFloat
  simp only [hs, hy, hr]

theorem binary64_parseFloat_32_08 :
    parseFloat "32.08" = (F64.finite (2257429313219461 / 70368744177664), none) := by
  apply parseFloat_of_readFloat "32.08" (3208 / 100) _ (by rfl)
  · have h : readFloat "32.08".toList = some (scale 10 3208 (-2)) := by rfl
    rw [h, scale_eq _ _ _ (by norm_num)]
    norm_num
  · apply roundNearest_eval _ _ 5 4514858626438922 <;> norm_num [abs_of_pos, abs_lt]

end Binary64

/-! ## The numerical claims on the binary64 embedding -/

namespace Binary64

/-- C9, as stated, fails for the temperature converter: `32.08` degrees Fahrenheit is
converted to `0.0` degrees Celsius, whose exact inverse is `32`, off by `0.08`. -/
theorem C9_counterexample :
    parseFloat "32.08" = (F64.finite (2257429313219461 / 70368744177664), none) ∧
    convertTemperature "32.08" = (F64.finite 0, none) ∧
    ¬ |celsiusToFahrenheit 0 - 2257429313219461 / 70368744177664| ≤ 0.05 := by
  refine ⟨binary64_parseFloat_32_08, ?_, ?_⟩
  · have h := (convertTemperature_of_finite "32.08" _ binary64_parseFloat_32_08
      (by norm_num [abs_le])).1 ⟨0, by norm_num [abs_le]⟩
    rw [h, round1_of_near _ 0 (by norm_num) (by norm_num)]
    norm_num
    exact roundNearest_zero
  · norm_num [celsiusToFahrenheit, abs_le]

/-- C9, amended: for a parsable input whose `float64` value `x` has magnitude at most
`10 ^ 6`, the exact inverse conversion of the converter's output recovers `x` within 0.05
for wind speed, barometer and rain, and within 0.0901 for temperature (one decimal of a
degree Celsius is 0.18 degrees Fahrenheit). -/
theorem converters_round_trip_binary64 (s : String) (x : ℚ)
    (h : parseFloat s = (F64.finite x, none)) (hx : |x| ≤ 10 ^ 6) :
    (∃ r, convertWindSpeed s = (F64.finite r, none) ∧
      |kilometersPerHourToMilesPerHour r - x| ≤ 0.05) ∧
    (∃ r, convertBarometer s = (F64.finite r, none) ∧
      |hectopascalToInchOfMercury r - x| ≤ 0.05) ∧
    (∃ r, convertTemperature s = (F64.finite r, none) ∧
      |celsiusToFahrenheit r - x| ≤ 0.0901) ∧
    (∃ r, convertRain s = (F64.finite r, none) ∧
      |millimetersToInch r - x| ≤ 0.05) := by
  obtain ⟨w, hw, hwe⟩ := (convertWindSpeed_of_finite s x h hx).2
  obtain ⟨b, hb, hbe⟩ := (convertBarometer_of_finite s x h hx).2
  obtain ⟨t, ht, hte⟩ := (convertTemperature_of_finite s x h hx).2
  obtain ⟨r, hr, hre⟩ := (convertRain_of_finite s x h hx).2
  rw [abs_le] at hwe hbe hte hre
  norm_num at hwe hbe hte hre
  refine ⟨⟨w, hw, ?_⟩, ⟨b, hb, ?_⟩, ⟨t, ht, ?_⟩, ⟨r, hr, ?_⟩⟩
  · unfold kilometersPerHourToMilesPerHour
    rw [abs_le]
    constructor <;> norm_num <;> linarith
  · unfold hectopascalToInchOfMercury
    rw [abs_le]
    constructor <;> norm_num <;> linarith
  · unfold celsiusToFahrenheit
    rw [abs_le]
    constructor <;> norm_num <;> linarith
  · unfold millimetersToInch
    rw [abs_le]
    constructor <;> norm_num <;> linarith

/-- Instance of the amended C9 at the input `32.08`. -/
theorem converters_round_trip_binary64_witness :
    parseFloat "32.08" = (F64.finite (2257429313219461 / 70368744177664), none) ∧
    (∃ r, convertWindSpeed "32.08" = (F64.finite r, none) ∧
      |kilometersPerHourToMilesPerHour r - 2257429313219461 / 70368744177664| ≤ 0.05) ∧
    (∃ r, convertBarometer "32.08" = (F64.finite r, none) ∧
      |hectopascalToInchOfMercury r - 2257429313219461 / 70368744177664| ≤ 0.05) ∧
    (∃ r, convertTemperature "32.08" = (F64.finite r, none) ∧
      |celsiusToFahrenheit r - 2257429313219461 / 70368744177664| ≤ 0.0901) ∧
    (∃ r, convertRain "32.08" = (F64.finite r, none) ∧
      |millimetersToInch r - 2257429313219461 / 70368744177664| ≤ 0.05) :=
  ⟨binary64_parseFloat_32_08,
    converters_round_trip_binary64 "32.08" _ binary64_parseFloat_32_08 (by norm_num [abs_le])⟩

end Binary64

end Ecowitt
